import Mathlib

/-!
Verification of the Sugarscape simulation engine
(`src/app/sugarscape/page.tsx` of Ravisutha/SugarScape-Simulation-).

The engine's per-tick pipeline (`chooseIntents`, `resolveConflicts`,
`applyMoves`, `harvestMetabolizeDieGrow`), the landscape and histogram
builders and the distribution sampler are embedded shallowly below.
JS numbers that only ever hold integers are embedded as `Int`/`Nat`;
the floating-point draws (`Math.random()`, the Box-Muller deviate, the
Gaussian bump field, `Math.log2`) are abstracted as explicit rational or
integer parameters, as noted at each definition.  The source mutates the
shared `Cell` objects of the grid in place (`gridNext = gridPrev.slice()`
is a shallow copy); a cell-store model capturing exactly that aliasing is
given alongside the value-level (functional) model.
-/

/-- `interface Cell { sugar:number; maxSugar:number }`. -/
structure Cell where
  sugar : Int
  maxSugar : Int
deriving DecidableEq, Repr, Inhabited

/-- `interface Agent { id; x; y; sugar; vision; metabolism }`.  Coordinates
are embedded as `Nat` (the engine only ever stores wrapped, nonnegative
coordinates); `sugar` may go negative inside a tick, hence `Int`. -/
structure Agent where
  id : Int
  x : Nat
  y : Nat
  sugar : Int
  vision : Nat
  metabolism : Int
deriving DecidableEq, Repr, Inhabited

/-- One weighted item of a discrete distribution (`{value, weight}`).
Weights are JS floats; embedded as exact rationals. -/
structure DiscreteItem where
  value : Int
  weight : ℚ
deriving DecidableEq, Repr, Inhabited

/-- `type IntDistribution = uniform | normal | discrete`. -/
inductive IntDistribution where
  | uniform (min max : Int)
  | normal (mean sd : ℚ) (min max : Int)
  | discrete (items : List DiscreteItem)
deriving DecidableEq, Repr

/-- `const clamp = (v,lo,hi) => Math.max(lo, Math.min(hi, v))`. -/
def clamp {α : Type} [LinearOrder α] (v lo hi : α) : α :=
  max lo (min hi v)

/-- `const idx = (x,y,w) => y*w + x` (row-major cell index). -/
def idx (x y w : Nat) : Nat := y * w + x

/-- `const wrap = (n,size) => { const r = n%size; return r<0 ? r+size : r }`.
JS `%` on integers is the truncated remainder, i.e. `Int.tmod`. -/
def wrap (n : Int) (size : Nat) : Int :=
  let r := Int.tmod n size
  if r < 0 then r + size else r

/-- `const dirs = [[1,0],[-1,0],[0,1],[0,-1]]` - fixed scan order
+x, -x, +y, -y. -/
def dirs : List (Int × Int) := [(1, 0), (-1, 0), (0, 1), (0, -1)]

/-- The walk of the `discrete` branch of `sampleInt`: subtract each weight
from the running draw and return the first value whose cumulative weight
reaches it (`r -= it.weight; if (r<=0) return it.value`). -/
def discreteWalk : List DiscreteItem → ℚ → Option Int
  | [], _ => none
  | it :: rest, r =>
      if r - it.weight ≤ 0 then some it.value else discreteWalk rest (r - it.weight)

/-- `function sampleInt(spec)` with the two hidden floating-point draws made
explicit: `u` is the `Math.random()` draw in `[0,1)` consumed by the
`uniform` and `discrete` branches, and `z` is the Box-Muller standard-normal
deviate (`gaussian()`) consumed by the `normal` branch. -/
def sampleInt (spec : IntDistribution) (u : ℚ) (z : ℚ) : Int :=
  match spec with
  | .uniform mn mx =>
      let v : Int := ⌊(mn : ℚ) + u * ((mx : ℚ) - (mn : ℚ) + 1)⌋
      clamp v (min mn mx) (max mn mx)
  | .normal mean sd mn mx =>
      let x : ℚ := mean + z * sd
      clamp (round x) (min mn mx) (max mn mx)
  | .discrete items =>
      let pos := items.filter (fun it => decide (0 < it.weight))
      if pos.isEmpty then 0
      else
        let total := (pos.map (fun it => it.weight)).sum
        ((discreteWalk pos (u * total)).getD (pos.getLastD default).value)

/-- `function buildLandscape(width,height,maxSugarPerCell)`.  The two-peak
Gaussian bump field `gaussian2D(..cx1..) + gaussian2D(..cx2..)` is a
floating-point computation; it is abstracted here as the parameter
`bump x y`, after which the source computes
`sugar = clamp(Math.round(g), 0, maxSugarPerCell)` and stores
`{sugar, maxSugar: sugar}` at `idx(x,y,width)` (row-major: `y` outer loop,
`x` inner loop). -/
def buildLandscape (width height : Nat) (maxSugarPerCell : Int)
    (bump : Nat → Nat → ℚ) : List Cell :=
  (List.range height).flatMap (fun y =>
    (List.range width).map (fun x =>
      let sugar := clamp (round (bump x y)) 0 maxSugarPerCell
      { sugar := sugar, maxSugar := sugar }))

/-- The occupancy bitmap `occPrev` built at the top of `chooseIntents`:
`occPrev[idx(a.x,a.y,width)] = 1` for each previous agent.  The source
array has length `width*height` and silently ignores out-of-range writes,
hence the bound guard. -/
def occPrev (agents : List Agent) (w h : Nat) : Nat → Bool :=
  fun j => agents.any (fun a => idx a.x a.y w < w * h && idx a.x a.y w == j)

/-- The mutable `best` record of the intent scan. -/
structure Best where
  x : Nat
  y : Nat
  sugar : Int
  dist : Nat
deriving DecidableEq, Repr

/-- One iteration of the inner scan loop of `chooseIntents`:
skip the cell when occupied, otherwise replace `best` when the scanned
sugar is strictly greater, or equal at a strictly smaller distance. -/
def bestUpdate (grid : List Cell) (occ : Nat → Bool) (w : Nat)
    (b : Best) (nx ny d : Nat) : Best :=
  let j := idx nx ny w
  if occ j then b
  else
    let s := (grid.getD j default).sugar
    if s > b.sugar ∨ (s = b.sugar ∧ d < b.dist) then
      { x := nx, y := ny, sugar := s, dist := d }
    else b

/-- The scan of one cardinal direction `(dx,dy)`:
`for (d = 1; d <= a.vision; d++)` with torus wrapping. -/
def scanDir (grid : List Cell) (occ : Nat → Bool) (w h : Nat)
    (a : Agent) (dxy : Int × Int) (b : Best) : Best :=
  (List.range' 1 a.vision).foldl (fun b (d : Nat) =>
    let nx := (wrap ((a.x : Int) + dxy.1 * (d : Int)) w).toNat
    let ny := (wrap ((a.y : Int) + dxy.2 * (d : Int)) h).toNat
    bestUpdate grid occ w b nx ny d) b

/-- An intent record `{to, from}` (origin and destination cell indices);
`to` and `from` are Lean keywords, so the fields are named `dest` and
`frm`. -/
structure Intent where
  dest : Nat
  frm : Nat
deriving DecidableEq, Repr, Inhabited

/-- The per-agent body of `chooseIntents`: `best` starts at the agent's own
cell (distance 0, that cell's sugar), then the four directions are scanned
in the fixed order of `dirs`. -/
def chooseIntent (grid : List Cell) (occ : Nat → Bool) (w h : Nat)
    (a : Agent) : Intent :=
  let b0 : Best :=
    { x := a.x, y := a.y, sugar := (grid.getD (idx a.x a.y w) default).sugar,
      dist := 0 }
  let b := dirs.foldl (fun b dxy => scanDir grid occ w h a dxy b) b0
  { dest := idx b.x b.y w, frm := idx a.x a.y w }

/-- `function chooseIntents(agentsPrev, gridPrev, width, height)`. -/
def chooseIntents (agentsPrev : List Agent) (gridPrev : List Cell)
    (w h : Nat) : List Intent :=
  agentsPrev.map (chooseIntent gridPrev (occPrev agentsPrev w h) w h)

/-- One iteration of the `resolveConflicts` loop for agent index `i` with
intent `p`: an unclaimed destination is claimed; an already claimed one is
usurped exactly when the fresh coin flip (`Math.random() < 0.5`, abstracted
as `flips i`) succeeds.  The `Int32Array(width*height)` ignores
out-of-range destinations, hence the bound guard (`wh = width*height`). -/
def resolveStep (flips : Nat → Bool) (wh : Nat)
    (winners : Nat → Option Nat) (i : Nat) (p : Intent) : Nat → Option Nat :=
  if p.dest < wh then
    match winners p.dest with
    | none => fun t => if t = p.dest then some i else winners t
    | some _ =>
        if flips i then fun t => if t = p.dest then some i else winners t
        else winners
  else winners

/-- The `for (i = 0; ...)` loop of `resolveConflicts`, carrying the running
agent index. -/
def resolveGo (flips : Nat → Bool) (wh : Nat) :
    Nat → List Intent → (Nat → Option Nat) → (Nat → Option Nat)
  | _, [], winners => winners
  | i, p :: rest, winners =>
      resolveGo flips wh (i + 1) rest (resolveStep flips wh winners i p)

/-- `function resolveConflicts(intents, width, height)`: a winners map over
the `width*height` cells, initialised to none (`-1`), folded over the
intents in agent-index order.  The coin flips are abstracted as the
function `flips` indexed by the agent making the contested claim. -/
def resolveConflicts (intents : List Intent) (w h : Nat)
    (flips : Nat → Bool) : Nat → Option Nat :=
  resolveGo flips (w * h) 0 intents (fun _ => none)

/-- `function applyMoves(agentsPrev, intents, winners, width)`: agent `i`
moves to its destination `t` exactly when `winners[t] === i`
(`x = t % width`, `y = Math.floor(t / width)`), otherwise it stays.  The
source first copies every agent (`{...a}`), so this is a pure map; the
derived `occNext` bitmap, unused by the engine, is not modelled. -/
def applyMoves (agentsPrev : List Agent) (intents : List Intent)
    (winners : Nat → Option Nat) (w : Nat) : List Agent :=
  (List.range agentsPrev.length).map (fun i =>
    if winners ((intents.getD i default).dest) = some i then
      { agentsPrev.getD i default with
        x := (intents.getD i default).dest % w,
        y := (intents.getD i default).dest / w }
    else agentsPrev.getD i default)

/-- The harvest loop: for each agent in order, add the full sugar of its
cell to the agent and zero the cell
(`a.sugar += gridNext[j].sugar; gridNext[j].sugar = 0`).  This functional
model threads the grid values through the loop. -/
def harvest (w : Nat) : List Agent → List Cell → List Agent × List Cell
  | [], grid => ([], grid)
  | a :: rest, grid =>
      let j := idx a.x a.y w
      let c := grid.getD j default
      let grid1 := grid.set j { c with sugar := 0 }
      let (rest1, grid2) := harvest w rest grid1
      ({ a with sugar := a.sugar + c.sugar } :: rest1, grid2)

/-- `function harvestMetabolizeDieGrow(agentsNext, gridPrev, growbackRate,
width)` as a value-level (functional) model: harvest, metabolise
(`a.sugar -= a.metabolism`), death filter (`a.sugar >= 0` survives), then
growback (`c.sugar = Math.min(c.maxSugar, c.sugar + growbackRate)`).
The source's `gridNext = gridPrev.slice()` shares the cell objects with
the input grid; this model computes the values of `alive` and `gridNext`,
and the store model below captures the sharing. -/
def harvestMetabolizeDieGrow (agentsNext : List Agent) (gridPrev : List Cell)
    (growbackRate : Int) (w : Nat) : List Agent × List Cell :=
  let hres := harvest w agentsNext gridPrev
  let metabolized := hres.1.map (fun a => { a with sugar := a.sugar - a.metabolism })
  let alive := metabolized.filter (fun a => decide (0 ≤ a.sugar))
  let gridNext := hres.2.map (fun c =>
    { c with sugar := min c.maxSugar (c.sugar + growbackRate) })
  (alive, gridNext)

/-!  Cell-store model of `harvestMetabolizeDieGrow`.

In the source a grid is an array of references to `Cell` objects and
`gridNext = gridPrev.slice()` copies only the references.  Here `store` is
the heap of cell objects and a grid is a list of store indices (`ids`);
`slice()` copies the id list and leaves the store shared.  Mutating
`gridNext[j].sugar` updates the store at `ids[j]`, which the previous grid
*also* points to. -/

/-- Dereference a grid (a list of cell ids) through the store. -/
def readGrid (store : List Cell) (ids : List Nat) : List Cell :=
  ids.map (fun i => store.getD i default)

/-- The harvest loop acting on the shared cell store.  A cell id that falls
outside the store (only possible for an out-of-range agent position, where
the source would crash) is modelled as an inert read/write. -/
def harvestStore (w : Nat) : List Agent → List Cell → List Nat →
    List Agent × List Cell
  | [], store, _ => ([], store)
  | a :: rest, store, ids =>
      let cid := ids.getD (idx a.x a.y w) store.length
      let c := store.getD cid default
      let store1 := store.set cid { c with sugar := 0 }
      let (rest1, store2) := harvestStore w rest store1 ids
      ({ a with sugar := a.sugar + c.sugar } :: rest1, store2)

/-- The growback loop acting on the shared cell store:
`for (j = 0; j < gridNext.length; j++) { c = gridNext[j]; c.sugar = ... }`. -/
def growStore (rate : Int) (store : List Cell) (ids : List Nat) : List Cell :=
  ids.foldl (fun st cid =>
    let c := st.getD cid default
    st.set cid { c with sugar := min c.maxSugar (c.sugar + rate) }) store

/-- `harvestMetabolizeDieGrow` on the cell store: returns the updated store,
the surviving agents, and the id list of the returned grid - which is the
input grid's id list, because `gridPrev.slice()` copies references only. -/
def harvestMetabolizeDieGrowStore (agentsNext : List Agent)
    (store : List Cell) (gridIds : List Nat) (rate : Int) (w : Nat) :
    List Cell × List Agent × List Nat :=
  let hres := harvestStore w agentsNext store gridIds
  let metabolized := hres.1.map (fun a => { a with sugar := a.sugar - a.metabolism })
  let alive := metabolized.filter (fun a => decide (0 ≤ a.sugar))
  let store2 := growStore rate hres.2 gridIds
  (store2, alive, gridIds)

/-- One tick of the engine core, phases A-D of `doStep`:
intents from the previous snapshot, conflict resolution, move application,
then the resource cycle. -/
def stepCore (w h : Nat) (rate : Int) (flips : Nat → Bool)
    (agents : List Agent) (grid : List Cell) : List Agent × List Cell :=
  let intents := chooseIntents agents grid w h
  let winners := resolveConflicts intents w h flips
  let agentsNext := applyMoves agents intents winners w
  harvestMetabolizeDieGrow agentsNext grid rate w

/-- The optional respawn tail of `doStep`:
`if (respawn && alive.length < agentCount)` append
`makeAgents(agentCount - alive.length, ...)`.  The population generator is
random (`randInt`, `sampleInt` draws), so it is abstracted as the function
`mk` from the number of births to the newborn list. -/
def stepWithRespawn (w h : Nat) (rate : Int) (flips : Nat → Bool)
    (respawn : Bool) (agentCount : Nat) (mk : Nat → List Agent)
    (agents : List Agent) (grid : List Cell) : List Agent × List Cell :=
  let res := stepCore w h rate flips agents grid
  let finalAgents :=
    if respawn ∧ res.1.length < agentCount then
      res.1 ++ mk (agentCount - res.1.length)
    else res.1
  (finalAgents, res.2)

/-- `const doStep = () => { if (!gridRef.current || !agentsRef.current)
return; ... }`: the driver's per-tick step function.  Its only rejection
path is a null grid or agent set; otherwise it always runs the full
pipeline and installs the produced world (`setGrid`, `setAgents`). -/
def doStep (gridOpt : Option (List Cell)) (agentsOpt : Option (List Agent))
    (w h : Nat) (rate : Int) (flips : Nat → Bool) (respawn : Bool)
    (agentCount : Nat) (mk : Nat → List Agent) :
    Option (List Agent × List Cell) :=
  match gridOpt, agentsOpt with
  | some grid, some agents =>
      some (stepWithRespawn w h rate flips respawn agentCount mk agents grid)
  | _, _ => none

/-- Iterated ticks from an initial world, with per-tick coin-flip and
respawn-draw streams. -/
def iterWorld (w h : Nat) (rate : Int) (flipsSeq : Nat → Nat → Bool)
    (respawn : Bool) (agentCount : Nat) (mkSeq : Nat → Nat → List Agent)
    (init : List Agent × List Cell) : Nat → List Agent × List Cell
  | 0 => init
  | n + 1 =>
      let st := iterWorld w h rate flipsSeq respawn agentCount mkSeq init n
      stepWithRespawn w h rate (flipsSeq n) respawn agentCount (mkSeq n) st.1 st.2

/-- The adaptive bin target `Math.ceil(Math.log2(Math.max(2, n)) + 1)`:
for the integer arguments involved this equals the ceiling base-2
logarithm plus one (`Math.log2` is exact on this range), embedded with
`Nat.clog`. -/
def autoBinTarget (n : Nat) : Nat := Nat.clog 2 (max 2 n) + 1

/-- The `clamp` applied to the Nat-valued bin parameters. -/
def clampNat (v lo hi : Nat) : Nat := max lo (min hi v)

/-- Minimum of the (floored) sugar values `v :: vs`; the source folds with
`Math.floor(agents[i].sugar)`, the identity on the integer sugars. -/
def histMin (v : Int) (vs : List Int) : Int := vs.foldl min v

/-- Maximum of the (floored) sugar values `v :: vs`. -/
def histMax (v : Int) (vs : List Int) : Int := vs.foldl max v

/-- The bin count `k`: `clamp(ceil(log2(max(2,n))+1), 5, 30)` when `auto`,
otherwise `clamp(binCount, 1, 50)`. -/
def histK (auto : Bool) (binCount n : Nat) : Nat :=
  if auto then clampNat (autoBinTarget n) 5 30 else clampNat binCount 1 50

/-- `range = maxS - minS + 1` (positive whenever `minS ≤ maxS`). -/
def histRange (v : Int) (vs : List Int) : Nat :=
  (histMax v vs - histMin v vs).toNat + 1

/-- `binSize = Math.max(1, Math.ceil(range / k))`. -/
def histBinSize (v : Int) (vs : List Int) (k : Nat) : Nat :=
  max 1 ((histRange v vs + k - 1) / k)

/-- `nb = Math.ceil(range / binSize)`. -/
def histNB (v : Int) (vs : List Int) (binSize : Nat) : Nat :=
  (histRange v vs + binSize - 1) / binSize

/-- The bin an agent with value `x` is counted in:
`clamp(Math.floor((x - minS) / binSize), 0, nb - 1)`.  For `x ≥ minS` the
lower clamp is the `Int.toNat` truncation. -/
def binIndexOf (minS : Int) (binSize nb : Nat) (x : Int) : Nat :=
  min ((x - minS).toNat / binSize) (nb - 1)

/-- One output bin `{ bin: "lo-hi", count }`; the label is modelled by its
two integer endpoints. -/
structure Bin where
  lo : Int
  hi : Int
  count : Nat
deriving DecidableEq, Repr

/-- `function wealthHistogram(agents, auto=true, binCount=12)`:
empty population gives one "0-0" bin; a degenerate range gives a single
bin holding everyone; otherwise `nb` contiguous bins of width `binSize`
counted via `binIndexOf`. -/
def wealthHistogram (agents : List Agent) (auto : Bool) (binCount : Nat) :
    List Bin :=
  match agents.map (fun a => a.sugar) with
  | [] => [{ lo := 0, hi := 0, count := 0 }]
  | v :: vs =>
    let n := agents.length
    let minS := histMin v vs
    let maxS := histMax v vs
    if minS = maxS then [{ lo := minS, hi := maxS, count := n }]
    else
      let k := histK auto binCount n
      let binSize := histBinSize v vs k
      let nb := histNB v vs binSize
      let counts := (v :: vs).foldl (fun arr x =>
        arr.set (binIndexOf minS binSize nb x)
          (arr.getD (binIndexOf minS binSize nb x) 0 + 1)) (List.replicate nb 0)
      (List.range nb).map (fun (i : Nat) =>
        { lo := minS + (i : Int) * (binSize : Int),
          hi := minS + (i : Int) * (binSize : Int) + (binSize : Int) - 1,
          count := counts.getD i 0 })

/-!  Specification-level restatement of the intent scan (for the refinement
claim about `chooseIntents`): the scanned candidates are generated in the
spec's traversal order, occupied cells are filtered out, and the best
candidate is the fold of the spec's replacement rule. -/

/-- A scanned candidate cell: wrapped coordinates and scan distance. -/
structure Candidate where
  x : Nat
  y : Nat
  dist : Nat
deriving DecidableEq, Repr

/-- Modelled from the spec: the candidate cells of one direction, one cell
at a time up to `vision` steps, wrapping modulo width/height. -/
def candList (w h : Nat) (a : Agent) (dxy : Int × Int) : List Candidate :=
  (List.range' 1 a.vision).map (fun (d : Nat) =>
    { x := (wrap ((a.x : Int) + dxy.1 * (d : Int)) w).toNat,
      y := (wrap ((a.y : Int) + dxy.2 * (d : Int)) h).toNat,
      dist := d })

/-- Modelled from the spec: all scanned candidates in the fixed traversal
order +x, -x, +y, -y. -/
def scanCandidates (w h : Nat) (a : Agent) : List Candidate :=
  dirs.flatMap (candList w h a)

/-- Modelled from the spec: the best-candidate replacement rule - replace
exactly when the scanned cell's sugar is strictly greater, or equal with a
strictly smaller distance. -/
def specUpdate (grid : List Cell) (w : Nat) (b : Best) (c : Candidate) : Best :=
  let s := (grid.getD (idx c.x c.y w) default).sugar
  if s > b.sugar ∨ (s = b.sugar ∧ c.dist < b.dist) then
    { x := c.x, y := c.y, sugar := s, dist := c.dist }
  else b

/-- Modelled from the spec (section 4.4): start from the agent's own cell at
distance 0, drop the candidates occupied in the snapshot, and fold the
replacement rule over the remaining candidates in traversal order. -/
def chooseIntentSpec (grid : List Cell) (occ : Nat → Bool) (w h : Nat)
    (a : Agent) : Intent :=
  let b0 : Best :=
    { x := a.x, y := a.y, sugar := (grid.getD (idx a.x a.y w) default).sugar,
      dist := 0 }
  let cands := (scanCandidates w h a).filter (fun c => !occ (idx c.x c.y w))
  let b := cands.foldl (specUpdate grid w) b0
  { dest := idx b.x b.y w, frm := idx a.x a.y w }

/-- Modelled from the spec: the whole intent-planning phase, agent by
agent. -/
def chooseIntentsSpec (agentsPrev : List Agent) (gridPrev : List Cell)
    (w h : Nat) : List Intent :=
  agentsPrev.map (chooseIntentSpec gridPrev (occPrev agentsPrev w h) w h)

/-- The claimant indices for destination `t` among the intents, starting
from agent index `k`, in agent-index order. -/
def claimantsFrom (k : Nat) : List Intent → Nat → List Nat
  | [], _ => []
  | p :: rest, t =>
      if p.dest = t then k :: claimantsFrom (k + 1) rest t
      else claimantsFrom (k + 1) rest t

/-- The per-destination arbitration fold described by the spec: the first
claimant takes the cell, and each later claimant `i` usurps the current
holder exactly when its coin flip `flips i` succeeds. -/
def foldWinner (flips : Nat → Bool) (acc : Option Nat) (cs : List Nat) :
    Option Nat :=
  cs.foldl (fun acc i =>
    match acc with
    | none => some i
    | some j => if flips i then some i else some j) acc

/-! ### Generic helper lemmas -/

theorem tmod_bounds (n : Int) (s : Nat) (h : 0 < s) :
    -(s : Int) < Int.tmod n s ∧ Int.tmod n s < s := by
  cases n with
  | ofNat m =>
      have h1 : (Int.ofNat m).tmod s = ((m % s : Nat) : Int) := rfl
      have h2 := Nat.mod_lt m h
      rw [h1]; omega
  | negSucc m =>
      have h1 : (Int.negSucc m).tmod s = -(((m + 1) % s : Nat) : Int) := rfl
      have h2 := Nat.mod_lt (m + 1) h
      rw [h1]; omega

theorem wrap_bounds (n : Int) (s : Nat) (h : 0 < s) :
    0 ≤ wrap n s ∧ wrap n s < s := by
  have hb := tmod_bounds n s h
  simp only [wrap]
  split <;> omega

theorem wrap_toNat_lt (n : Int) (s : Nat) (h : 0 < s) : (wrap n s).toNat < s := by
  have := wrap_bounds n s h
  omega

theorem foldl_inv {α β : Type} (f : β → α → β) (P : β → Prop) :
    ∀ (l : List α) (b : β), P b → (∀ b a, a ∈ l → P b → P (f b a)) →
      P (l.foldl f b)
  | [], b, hb, _ => hb
  | a :: l, b, hb, hstep =>
      foldl_inv f P l (f b a) (hstep b a (List.mem_cons_self a l) hb)
        (fun b x hx hPb => hstep b x (List.mem_cons_of_mem a hx) hPb)

theorem foldl_guard_eq_filter {α β : Type} (p : α → Bool) (f : β → α → β) :
    ∀ (l : List α) (b : β),
      l.foldl (fun b a => if p a then b else f b a) b
        = (l.filter (fun a => !p a)).foldl f b
  | [], _ => rfl
  | a :: l, b => by
      by_cases h : p a = true
      · simp [List.foldl_cons, List.filter_cons, h,
          foldl_guard_eq_filter p f l b]
      · simp only [Bool.not_eq_true] at h
        simp [List.foldl_cons, List.filter_cons, h,
          foldl_guard_eq_filter p f l (f b a)]

theorem idx_lt (x y w h : Nat) (hx : x < w) (hy : y < h) : idx x y w < w * h := by
  unfold idx
  calc y * w + x < y * w + w := by omega
  _ = (y + 1) * w := by ring
  _ ≤ h * w := Nat.mul_le_mul_right w hy
  _ = w * h := Nat.mul_comm h w

theorem idx_inj (w x1 y1 x2 y2 : Nat) (h1 : x1 < w) (h2 : x2 < w)
    (heq : idx x1 y1 w = idx x2 y2 w) : x1 = x2 ∧ y1 = y2 := by
  unfold idx at heq
  have hx : x1 = x2 := by
    have e1 : (y1 * w + x1) % w = x1 % w := by
      rw [Nat.mul_comm]; exact Nat.mul_add_mod w y1 x1
    have e2 : (y2 * w + x2) % w = x2 % w := by
      rw [Nat.mul_comm]; exact Nat.mul_add_mod w y2 x2
    have e3 : x1 % w = x2 % w := by rw [← e1, ← e2, heq]
    rw [Nat.mod_eq_of_lt h1, Nat.mod_eq_of_lt h2] at e3
    exact e3
  subst hx
  have hw : 0 < w := by omega
  have hy : y1 = y2 := by
    have : y1 * w = y2 * w := by omega
    exact Nat.eq_of_mul_eq_mul_right hw this
  exact ⟨rfl, hy⟩

theorem getD_set_eq {α : Type} (l : List α) (j : Nat) (a d : α)
    (h : j < l.length) : (l.set j a).getD j d = a := by
  rw [List.getD_eq_getElem _ _ (by simpa using h)]
  simp [List.getElem_set]

theorem getD_set_ne {α : Type} (l : List α) (i j : Nat) (a d : α)
    (h : j ≠ i) : (l.set j a).getD i d = l.getD i d := by
  by_cases hi : i < l.length
  · rw [List.getD_eq_getElem _ _ (by simpa using hi),
      List.getD_eq_getElem _ _ hi]
    simp [List.getElem_set, h]
  · have hi2 : l.length ≤ i := by omega
    rw [List.getD_eq_default _ _ (by simpa using hi2),
      List.getD_eq_default _ _ hi2]

theorem getD_map {α β : Type} (f : α → β) (l : List α) (j : Nat) (d : α)
    (h : j < l.length) : (l.map f).getD j (f d) = f (l.getD j d) := by
  rw [List.getD_eq_getElem _ _ (by simpa using h),
    List.getD_eq_getElem _ _ h]
  simp

theorem sum_set_int (l : List Int) (j : Nat) (a : Int) (h : j < l.length) :
    (l.set j a).sum = l.sum - l.getD j 0 + a := by
  induction l generalizing j with
  | nil => simp at h
  | cons x xs ih =>
      cases j with
      | zero => simp [List.set]; ring
      | succ j' =>
          have hj : j' < xs.length := by simpa using h
          simp only [List.set, List.sum_cons, ih j' hj, List.getD_cons_succ]
          ring

/-! ### Claim theorems -/

/-- C1: the driver's step function is NOT rejected on a grid/config shape
mismatch.  With `width = 2`, `height = 1` and a grid of length 3 (so
`grid.length ≠ width*height`), `doStep` runs the full
intent-conflict-move-resource pipeline and produces a new world: its only
rejection path is a null grid or agent set. -/
theorem doStep_runs_on_shape_mismatch :
    ([⟨0, 0⟩, ⟨0, 0⟩, ⟨0, 0⟩] : List Cell).length ≠ 2 * 1 ∧
    (doStep (some [⟨0, 0⟩, ⟨0, 0⟩, ⟨0, 0⟩])
        (some [⟨0, 0, 0, 0, 1, 0⟩]) 2 1 1 (fun _ => false) false 0
        (fun _ => [])).isSome = true := by
  constructor
  · decide
  · rfl

/-- C7: an agent of the post-move set survives the resource cycle iff its
sugar after harvest and metabolism is nonnegative; in particular
post-metabolism sugar exactly 0 survives. -/
theorem survives_iff_nonneg (agentsNext : List Agent) (gridPrev : List Cell)
    (rate : Int) (w : Nat) (a : Agent)
    (ha : a ∈ (harvest w agentsNext gridPrev).1.map
        (fun a => { a with sugar := a.sugar - a.metabolism })) :
    (a ∈ (harvestMetabolizeDieGrow agentsNext gridPrev rate w).1 ↔ 0 ≤ a.sugar)
    ∧ (a.sugar = 0 → a ∈ (harvestMetabolizeDieGrow agentsNext gridPrev rate w).1) := by
  unfold harvestMetabolizeDieGrow
  constructor
  · simp only [List.mem_filter, decide_eq_true_eq]
    exact ⟨fun h => h.2, fun h => ⟨ha, h⟩⟩
  · intro h0
    simp only [List.mem_filter, decide_eq_true_eq]
    exact ⟨ha, by omega⟩

/-- Witness for C7 at a concrete input: one agent harvesting 3 sugar and
metabolising 2 from an initial 5 ends at 6 and survives. -/
theorem survives_iff_nonneg_witness :
    (⟨0, 0, 0, 4, 1, 2⟩ : Agent) ∈ (harvest 1 [⟨0, 0, 0, 3, 1, 2⟩] [⟨3, 3⟩]).1.map
        (fun a => { a with sugar := a.sugar - a.metabolism }) ∧
    ((⟨0, 0, 0, 4, 1, 2⟩ : Agent) ∈
        (harvestMetabolizeDieGrow [⟨0, 0, 0, 3, 1, 2⟩] [⟨3, 3⟩] 1 1).1 ↔
      (0 : Int) ≤ 4) := by
  refine ⟨by decide, ?_⟩
  exact (survives_iff_nonneg [⟨0, 0, 0, 3, 1, 2⟩] [⟨3, 3⟩] 1 1
    ⟨0, 0, 0, 4, 1, 2⟩ (by decide)).1

/-- C10: the harvest loop conserves total sugar - the agents' total plus
the grid's total is unchanged by harvesting, for every agent order (each
agent gains exactly the sugar its cell loses). -/
theorem harvest_conserves_sugar (agents : List Agent) (grid : List Cell)
    (w : Nat) (hin : ∀ a ∈ agents, idx a.x a.y w < grid.length) :
    ((harvest w agents grid).1.map (fun a => a.sugar)).sum
      + ((harvest w agents grid).2.map (fun c => c.sugar)).sum
    = (agents.map (fun a => a.sugar)).sum
      + (grid.map (fun c => c.sugar)).sum := by
  induction agents generalizing grid with
  | nil => simp [harvest]
  | cons a rest ih =>
      have hj : idx a.x a.y w < grid.length :=
        hin a (List.mem_cons_self a rest)
      have hin' : ∀ b ∈ rest, idx b.x b.y w <
          (grid.set (idx a.x a.y w)
            { sugar := 0,
              maxSugar := (grid.getD (idx a.x a.y w) default).maxSugar }).length := by
        intro b hb
        rw [List.length_set]
        exact hin b (List.mem_cons_of_mem a hb)
      have hrec := ih (grid.set (idx a.x a.y w)
        { sugar := 0,
          maxSugar := (grid.getD (idx a.x a.y w) default).maxSugar }) hin'
      have hgetD : (grid.map (fun c => c.sugar)).getD (idx a.x a.y w) 0
          = (grid.getD (idx a.x a.y w) default).sugar := by
        rw [List.getD_eq_getElem _ _ (by simpa using hj),
          List.getD_eq_getElem _ _ hj]
        simp
      have hmapset : ((grid.set (idx a.x a.y w)
            { sugar := 0,
              maxSugar := (grid.getD (idx a.x a.y w) default).maxSugar }).map
              (fun c => c.sugar)).sum
          = (grid.map (fun c => c.sugar)).sum
            - (grid.getD (idx a.x a.y w) default).sugar := by
        rw [List.map_set, sum_set_int _ _ _ (by simpa using hj), hgetD]
        simp
      simp only [harvest, List.map_cons, List.sum_cons]
      omega

/-- Witness for C10 at a concrete input: two agents on a 2x1 grid. -/
theorem harvest_conserves_sugar_witness :
    (∀ a ∈ ([⟨0, 0, 0, 1, 1, 0⟩, ⟨1, 1, 0, 2, 1, 0⟩] : List Agent),
      idx a.x a.y 2 < ([⟨3, 3⟩, ⟨4, 4⟩] : List Cell).length) ∧
    ((harvest 2 [⟨0, 0, 0, 1, 1, 0⟩, ⟨1, 1, 0, 2, 1, 0⟩]
        [⟨3, 3⟩, ⟨4, 4⟩]).1.map (fun a => a.sugar)).sum
      + ((harvest 2 [⟨0, 0, 0, 1, 1, 0⟩, ⟨1, 1, 0, 2, 1, 0⟩]
        [⟨3, 3⟩, ⟨4, 4⟩]).2.map (fun c => c.sugar)).sum
    = (([⟨0, 0, 0, 1, 1, 0⟩, ⟨1, 1, 0, 2, 1, 0⟩] : List Agent).map
        (fun a => a.sugar)).sum
      + (([⟨3, 3⟩, ⟨4, 4⟩] : List Cell).map (fun c => c.sugar)).sum := by
  refine ⟨by decide, ?_⟩
  exact harvest_conserves_sugar [⟨0, 0, 0, 1, 1, 0⟩, ⟨1, 1, 0, 2, 1, 0⟩]
    [⟨3, 3⟩, ⟨4, 4⟩] 2 (by decide)

theorem discreteWalk_mem : ∀ (l : List DiscreteItem) (r : ℚ) (v : Int),
    discreteWalk l r = some v → v ∈ l.map (fun it => it.value)
  | [], _, _, h => by simp [discreteWalk] at h
  | it :: rest, r, v, h => by
      by_cases hle : r - it.weight ≤ 0
      · simp [discreteWalk, hle] at h
        simp [h]
      · simp only [discreteWalk, if_neg hle] at h
        simp only [List.map_cons, List.mem_cons]
        exact Or.inr (discreteWalk_mem rest (r - it.weight) v h)

theorem getLastD_mem' {α : Type} : ∀ (l : List α) (d : α), l ≠ [] →
    l.getLastD d ∈ l
  | [], _, h => absurd rfl h
  | a :: l, d, _ => by
      rw [List.getLastD_cons]
      cases l with
      | nil => simp [List.getLastD]
      | cons b l2 =>
          exact List.mem_cons_of_mem a (getLastD_mem' (b :: l2) a (by simp))

/-- C9: the discrete branch of `sampleInt` never fails - with no
positive-weight items it returns 0, otherwise it returns the value of one
of the remaining items (first to absorb the draw, last as fallback); and
for the single item `{value 1, weight 1}` it returns 1 for every draw in
`[0,1)`. -/
theorem sampleInt_discrete_correct (items : List DiscreteItem) (u z : ℚ)
    (h0 : 0 ≤ u) (h1 : u < 1) :
    ((items.filter (fun it => decide (0 < it.weight)) = [] →
        sampleInt (.discrete items) u z = 0)
      ∧ (items.filter (fun it => decide (0 < it.weight)) ≠ [] →
        sampleInt (.discrete items) u z ∈
          (items.filter (fun it => decide (0 < it.weight))).map
            (fun it => it.value)))
    ∧ sampleInt (.discrete [⟨1, 1⟩]) u z = 1 := by
  refine ⟨⟨?_, ?_⟩, ?_⟩
  · intro hempty
    simp [sampleInt, hempty]
  · intro hne
    simp only [sampleInt]
    rw [if_neg (by simpa [List.isEmpty_iff] using hne)]
    set pos := items.filter (fun it => decide (0 < it.weight)) with hpos
    cases hwalk : discreteWalk pos
        (u * (pos.map (fun it => it.weight)).sum) with
    | none =>
        simp only [Option.getD_none]
        exact List.mem_map_of_mem (fun it => it.value) (getLastD_mem' pos default hne)
    | some v =>
        simp only [Option.getD_some]
        exact discreteWalk_mem pos _ v hwalk
  · simp only [sampleInt]
    rw [if_neg (by decide)]
    have hwalk : discreteWalk
        (([⟨1, 1⟩] : List DiscreteItem).filter (fun it => decide (0 < it.weight)))
        (u * ((([⟨1, 1⟩] : List DiscreteItem).filter
          (fun it => decide (0 < it.weight))).map (fun it => it.weight)).sum)
        = some 1 := by
      have hfil : ([⟨1, 1⟩] : List DiscreteItem).filter
          (fun it => decide (0 < it.weight)) = [⟨1, 1⟩] := by decide
      rw [hfil]
      simp only [discreteWalk, List.map_cons, List.map_nil, List.sum_cons,
        List.sum_nil]
      rw [if_pos (by linarith)]
    rw [hwalk]
    rfl

/-- Witness for C9 at the concrete draw u = 1/2 (and z = 0) on the item
list [{value 5, weight 2}]. -/
theorem sampleInt_discrete_correct_witness :
    (0 : ℚ) ≤ 1 / 2 ∧ (1 / 2 : ℚ) < 1 ∧
    ((([⟨5, 2⟩] : List DiscreteItem).filter (fun it => decide (0 < it.weight)) = [] →
        sampleInt (.discrete [⟨5, 2⟩]) (1 / 2) 0 = 0)
      ∧ (([⟨5, 2⟩] : List DiscreteItem).filter (fun it => decide (0 < it.weight)) ≠ [] →
        sampleInt (.discrete [⟨5, 2⟩]) (1 / 2) 0 ∈
          (([⟨5, 2⟩] : List DiscreteItem).filter
            (fun it => decide (0 < it.weight))).map (fun it => it.value)))
    ∧ sampleInt (.discrete [⟨1, 1⟩]) (1 / 2) 0 = 1 := by
  refine ⟨by norm_num, by norm_num, ?_⟩
  exact sampleInt_discrete_correct [⟨5, 2⟩] (1 / 2) 0 (by norm_num) (by norm_num)

theorem readGrid_length (store : List Cell) (ids : List Nat) :
    (readGrid store ids).length = ids.length := by
  simp [readGrid]

theorem readGrid_set (store : List Cell) (ids : List Nat) (j : Nat) (c : Cell)
    (hj : j < ids.length) (hnd : ids.Nodup)
    (hb : ids.get ⟨j, hj⟩ < store.length) :
    readGrid (store.set (ids.get ⟨j, hj⟩) c) ids
      = (readGrid store ids).set j c := by
  apply List.ext_getElem
  · simp [readGrid_length]
  · intro k h1 h2
    have hk : k < ids.length := by simpa [readGrid_length] using h1
    simp only [readGrid, List.getElem_map, List.getElem_set]
    by_cases hkj : j = k
    · subst hkj
      rw [if_pos rfl]
      exact getD_set_eq store _ c default hb
    · rw [if_neg hkj]
      have hne : ids.get ⟨j, hj⟩ ≠ ids[k] := by
        intro he
        exact hkj ((hnd.getElem_inj_iff).mp he)
      exact getD_set_ne store _ _ c default hne

theorem readGrid_set_notin (store : List Cell) (ids : List Nat) (i : Nat)
    (c : Cell) (hi : i ∉ ids) :
    readGrid (store.set i c) ids = readGrid store ids := by
  unfold readGrid
  apply List.map_congr_left
  intro a ha
  exact getD_set_ne store a i c default (fun he => hi (he ▸ ha))

theorem growStore_cons (rate : Int) (j : Nat) (rest : List Nat)
    (store : List Cell) :
    growStore rate store (j :: rest)
      = growStore rate (store.set j
          { store.getD j default with
            sugar := min (store.getD j default).maxSugar
              ((store.getD j default).sugar + rate) }) rest := rfl

theorem growStore_getD_notin (rate : Int) :
    ∀ (ids : List Nat) (store : List Cell) (i : Nat), i ∉ ids →
      (growStore rate store ids).getD i default = store.getD i default
  | [], _, _, _ => rfl
  | j :: rest, store, i, hi => by
      have hne : j ≠ i := fun he => hi (he ▸ List.mem_cons_self j rest)
      have hrest : i ∉ rest := fun hr => hi (List.mem_cons_of_mem j hr)
      rw [growStore_cons]
      rw [growStore_getD_notin rate rest _ i hrest]
      exact getD_set_ne store i j _ default hne

theorem growStore_length (rate : Int) :
    ∀ (ids : List Nat) (store : List Cell),
      (growStore rate store ids).length = store.length
  | [], _ => rfl
  | j :: rest, store => by
      rw [growStore_cons]
      rw [growStore_length rate rest _]
      exact List.length_set store j _

theorem readGrid_getD (store : List Cell) (ids : List Nat) (j dN : Nat)
    (hj : j < ids.length) :
    (readGrid store ids).getD j default = store.getD (ids.getD j dN) default := by
  have h1 : j < (readGrid store ids).length := by
    simpa [readGrid_length] using hj
  rw [List.getD_eq_getElem _ _ h1, List.getD_eq_getElem _ _ hj]
  simp [readGrid]

theorem readGrid_set_getD (store : List Cell) (ids : List Nat) (j dN : Nat)
    (c : Cell) (hj : j < ids.length) (hnd : ids.Nodup)
    (hb : ids.getD j dN < store.length) :
    readGrid (store.set (ids.getD j dN) c) ids = (readGrid store ids).set j c := by
  have hget : ids.getD j dN = ids.get ⟨j, hj⟩ := by
    rw [List.getD_eq_getElem _ _ hj]; rfl
  rw [hget] at hb ⊢
  exact readGrid_set store ids j c hj hnd hb

theorem harvestStore_cons (w : Nat) (a : Agent) (rest : List Agent)
    (store : List Cell) (ids : List Nat) :
    harvestStore w (a :: rest) store ids
      = ({ a with sugar := a.sugar +
            (store.getD (ids.getD (idx a.x a.y w) store.length) default).sugar } ::
          (harvestStore w rest (store.set (ids.getD (idx a.x a.y w) store.length)
            { store.getD (ids.getD (idx a.x a.y w) store.length) default with
              sugar := 0 }) ids).1,
         (harvestStore w rest (store.set (ids.getD (idx a.x a.y w) store.length)
            { store.getD (ids.getD (idx a.x a.y w) store.length) default with
              sugar := 0 }) ids).2) := rfl

theorem harvest_cons (w : Nat) (a : Agent) (rest : List Agent)
    (grid : List Cell) :
    harvest w (a :: rest) grid
      = ({ a with sugar := a.sugar + (grid.getD (idx a.x a.y w) default).sugar } ::
          (harvest w rest (grid.set (idx a.x a.y w)
            { grid.getD (idx a.x a.y w) default with sugar := 0 })).1,
         (harvest w rest (grid.set (idx a.x a.y w)
            { grid.getD (idx a.x a.y w) default with sugar := 0 })).2) := rfl

theorem growStore_commute :
    ∀ (ids : List Nat) (store : List Cell) (rate : Int),
      ids.Nodup → (∀ i ∈ ids, i < store.length) →
      readGrid (growStore rate store ids) ids
        = (readGrid store ids).map (fun c =>
            { c with sugar := min c.maxSugar (c.sugar + rate) })
  | [], _, _, _, _ => rfl
  | j :: rest, store, rate, hnd, hb => by
      have hjlen : j < store.length := hb j (List.mem_cons_self j rest)
      have hnotin : j ∉ rest := (List.nodup_cons.mp hnd).1
      have hndr : rest.Nodup := (List.nodup_cons.mp hnd).2
      have hcons : ∀ (st : List Cell), readGrid st (j :: rest)
          = st.getD j default :: readGrid st rest := fun _ => rfl
      rw [growStore_cons, hcons, hcons, List.map_cons]
      have hb1 : ∀ i ∈ rest, i < (store.set j
          { store.getD j default with
            sugar := min (store.getD j default).maxSugar
              ((store.getD j default).sugar + rate) }).length := by
        intro i hi
        rw [List.length_set]
        exact hb i (List.mem_cons_of_mem j hi)
      have htail := growStore_commute rest (store.set j
        { store.getD j default with
          sugar := min (store.getD j default).maxSugar
            ((store.getD j default).sugar + rate) }) rate hndr hb1
      rw [htail, readGrid_set_notin store rest j _ hnotin]
      have hhead := growStore_getD_notin rate rest (store.set j
        { store.getD j default with
          sugar := min (store.getD j default).maxSugar
            ((store.getD j default).sugar + rate) }) j hnotin
      rw [hhead, getD_set_eq store j _ default hjlen]

theorem harvestStore_commute (w : Nat) :
    ∀ (agents : List Agent) (store : List Cell) (ids : List Nat),
      ids.Nodup → (∀ i ∈ ids, i < store.length) →
      (harvestStore w agents store ids).1
          = (harvest w agents (readGrid store ids)).1
      ∧ readGrid (harvestStore w agents store ids).2 ids
          = (harvest w agents (readGrid store ids)).2
      ∧ (harvestStore w agents store ids).2.length = store.length
  | [], _, _, _, _ => ⟨rfl, rfl, rfl⟩
  | a :: rest, store, ids, hnd, hb => by
      rw [harvestStore_cons, harvest_cons]
      by_cases hj : idx a.x a.y w < ids.length
      · have hmem : ids.getD (idx a.x a.y w) store.length ∈ ids := by
          rw [List.getD_eq_getElem _ _ hj]
          exact List.getElem_mem hj
        have hcid : ids.getD (idx a.x a.y w) store.length < store.length :=
          hb _ hmem
        have hc := readGrid_getD store ids (idx a.x a.y w) store.length hj
        have hset := readGrid_set_getD store ids (idx a.x a.y w) store.length
          { store.getD (ids.getD (idx a.x a.y w) store.length) default with
            sugar := 0 } hj hnd hcid
        have hb1 : ∀ i ∈ ids, i < (store.set
            (ids.getD (idx a.x a.y w) store.length)
            { store.getD (ids.getD (idx a.x a.y w) store.length) default with
              sugar := 0 }).length := by
          intro i hi
          rw [List.length_set]
          exact hb i hi
        have IH := harvestStore_commute w rest _ ids hnd hb1
        rw [hc, ← hset]
        refine ⟨?_, ?_, ?_⟩
        · rw [IH.1]
        · rw [IH.2.1]
        · rw [IH.2.2, List.length_set]
      · have hle : ids.length ≤ idx a.x a.y w := Nat.le_of_not_lt hj
        have e1 : ids.getD (idx a.x a.y w) store.length = store.length :=
          List.getD_eq_default ids store.length hle
        have e3 : store.getD store.length default = default :=
          List.getD_eq_default store default (Nat.le_refl _)
        have hgl : (readGrid store ids).length ≤ idx a.x a.y w := by
          rw [readGrid_length]; exact hle
        have e4 : (readGrid store ids).getD (idx a.x a.y w) default = default :=
          List.getD_eq_default _ default hgl
        have e5 : (readGrid store ids).set (idx a.x a.y w)
            { (readGrid store ids).getD (idx a.x a.y w) default with
              sugar := 0 } = readGrid store ids :=
          List.set_eq_of_length_le hgl
        have e2 : store.set (ids.getD (idx a.x a.y w) store.length)
            { store.getD (ids.getD (idx a.x a.y w) store.length) default with
              sugar := 0 } = store := by
          rw [e1]
          exact List.set_eq_of_length_le (Nat.le_refl _)
        rw [e5, e2, e1, e3, e4]
        have IH := harvestStore_commute w rest store ids hnd hb
        exact ⟨by rw [IH.1], by rw [IH.2.1], IH.2.2⟩

/-- C2 counterexample: `harvestMetabolizeDieGrow` is NOT a pure transform
of the input grid.  On a 1x1 world with one agent on the single cell
(sugar 1, growback 0), the previous grid - read back through the shared
cell store after the call - no longer holds its pre-call value: the
shallow `gridPrev.slice()` shares the cell objects, and harvest zeroes
them in place. -/
theorem hmdg_mutates_prev_grid :
    ¬ (readGrid (harvestMetabolizeDieGrowStore [⟨0, 0, 0, 0, 1, 0⟩]
          [⟨1, 1⟩] [0] 0 1).1 [0]
        = readGrid [⟨1, 1⟩] [0]) := by
  decide

/-- C2 (amended): one tick's resource cycle returns a fresh grid array
whose cells are the very objects of the input grid (`gridPrev.slice()`),
so after the call the input ("previous") grid reads back exactly the
post-growback values of the returned grid rather than its pre-call
values; the returned id list is the input id list, and the surviving
agents agree with the value-level model. -/
theorem hmdgStore_agrees (agents : List Agent) (store : List Cell)
    (ids : List Nat) (rate : Int) (w : Nat)
    (hnd : ids.Nodup) (hb : ∀ i ∈ ids, i < store.length) :
    (harvestMetabolizeDieGrowStore agents store ids rate w).2.2 = ids
    ∧ (harvestMetabolizeDieGrowStore agents store ids rate w).2.1
        = (harvestMetabolizeDieGrow agents (readGrid store ids) rate w).1
    ∧ readGrid (harvestMetabolizeDieGrowStore agents store ids rate w).1 ids
        = (harvestMetabolizeDieGrow agents (readGrid store ids) rate w).2 := by
  obtain ⟨h1, h2, h3⟩ := harvestStore_commute w agents store ids hnd hb
  refine ⟨rfl, ?_, ?_⟩
  · simp only [harvestMetabolizeDieGrowStore, harvestMetabolizeDieGrow]
    rw [h1]
  · simp only [harvestMetabolizeDieGrowStore, harvestMetabolizeDieGrow]
    have hb2 : ∀ i ∈ ids, i < (harvestStore w agents store ids).2.length := by
      intro i hi
      rw [h3]
      exact hb i hi
    rw [growStore_commute ids _ rate hnd hb2, h2]

/-- Witness for C2's amended theorem on a concrete 2-cell store. -/
theorem hmdgStore_agrees_witness :
    ([0, 1] : List Nat).Nodup ∧
    (harvestMetabolizeDieGrowStore [⟨0, 0, 0, 0, 1, 0⟩] [⟨1, 1⟩, ⟨2, 3⟩]
        [0, 1] 1 2).2.2 = [0, 1]
    ∧ (harvestMetabolizeDieGrowStore [⟨0, 0, 0, 0, 1, 0⟩] [⟨1, 1⟩, ⟨2, 3⟩]
        [0, 1] 1 2).2.1
        = (harvestMetabolizeDieGrow [⟨0, 0, 0, 0, 1, 0⟩]
            (readGrid [⟨1, 1⟩, ⟨2, 3⟩] [0, 1]) 1 2).1
    ∧ readGrid (harvestMetabolizeDieGrowStore [⟨0, 0, 0, 0, 1, 0⟩]
          [⟨1, 1⟩, ⟨2, 3⟩] [0, 1] 1 2).1 [0, 1]
        = (harvestMetabolizeDieGrow [⟨0, 0, 0, 0, 1, 0⟩]
            (readGrid [⟨1, 1⟩, ⟨2, 3⟩] [0, 1]) 1 2).2 := by
  refine ⟨by decide, ?_⟩
  exact hmdgStore_agrees [⟨0, 0, 0, 0, 1, 0⟩] [⟨1, 1⟩, ⟨2, 3⟩] [0, 1] 1 2
    (by decide) (by decide)

theorem scanDir_eq (grid : List Cell) (occ : Nat → Bool) (w h : Nat)
    (a : Agent) (dxy : Int × Int) (b : Best) :
    scanDir grid occ w h a dxy b
      = ((candList w h a dxy).filter (fun c => !occ (idx c.x c.y w))).foldl
          (specUpdate grid w) b := by
  have h1 : scanDir grid occ w h a dxy b
      = (candList w h a dxy).foldl
          (fun b c => if occ (idx c.x c.y w) then b else specUpdate grid w b c)
          b := by
    simp only [scanDir, candList, List.foldl_map]
    rfl
  rw [h1, foldl_guard_eq_filter]

/-- C4: the intent planner is exactly the procedure the spec describes -
best initialised to the agent's own cell at distance 0, the four cardinal
directions scanned in the fixed order +x, -x, +y, -y one cell at a time up
to `vision` steps with torus wrapping, occupied cells skipped, and the
best candidate replaced exactly on strictly greater sugar or equal sugar
at strictly smaller distance (so the earlier-scanned direction wins
remaining ties). -/
theorem chooseIntents_eq_spec (agentsPrev : List Agent) (gridPrev : List Cell)
    (w h : Nat) :
    chooseIntents agentsPrev gridPrev w h
      = chooseIntentsSpec agentsPrev gridPrev w h := by
  unfold chooseIntents chooseIntentsSpec
  apply List.map_congr_left
  intro a _
  unfold chooseIntent chooseIntentSpec
  simp only [scanCandidates, dirs, List.flatMap_cons, List.flatMap_nil,
    List.append_nil, List.filter_append, List.foldl_append,
    List.foldl_cons, List.foldl_nil, scanDir_eq]

theorem resolveStep_at (flips : Nat → Bool) (wh : Nat) (W : Nat → Option Nat)
    (k : Nat) (p : Intent) (t : Nat) :
    resolveStep flips wh W k p t
      = if p.dest = t ∧ t < wh then
          (match W t with
           | none => some k
           | some j => if flips k then some k else some j)
        else W t := by
  unfold resolveStep
  by_cases h1 : p.dest < wh
  · simp only [if_pos h1]
    by_cases h2 : p.dest = t
    · subst h2
      cases hW : W p.dest with
      | none => simp [hW, h1]
      | some j => by_cases hf : flips k <;> simp [hW, h1, hf]
    · have h2' : ¬t = p.dest := fun he => h2 he.symm
      cases hW : W t with
      | none =>
          cases hWp : W p.dest with
          | none => simp [hWp, h2', hW, h2]
          | some j => by_cases hf : flips k <;> simp [hWp, h2', hW, h2, hf]
      | some j =>
          cases hWp : W p.dest with
          | none => simp [hWp, h2', hW, h2]
          | some j2 => by_cases hf : flips k <;> simp [hWp, h2', hW, h2, hf]
  · simp only [if_neg h1]
    have hno : ¬(p.dest = t ∧ t < wh) := by
      rintro ⟨he, hlt⟩
      exact h1 (he ▸ hlt)
    simp [hno]

theorem resolveGo_char (flips : Nat → Bool) (wh : Nat) :
    ∀ (l : List Intent) (k : Nat) (W : Nat → Option Nat) (t : Nat), t < wh →
      resolveGo flips wh k l W t = foldWinner flips (W t) (claimantsFrom k l t)
  | [], _, _, _, _ => rfl
  | p :: rest, k, W, t, ht => by
      simp only [resolveGo]
      rw [resolveGo_char flips wh rest (k + 1) _ t ht]
      by_cases hpt : p.dest = t
      · simp only [claimantsFrom, if_pos hpt, foldWinner, List.foldl_cons]
        have hstep : resolveStep flips wh W k p t
            = (match W t with
               | none => some k
               | some j => if flips k then some k else some j) := by
          rw [resolveStep_at]
          simp [hpt, ht]
        rw [hstep]
      · simp only [claimantsFrom, if_neg hpt]
        have hstep : resolveStep flips wh W k p t = W t := by
          rw [resolveStep_at]
          simp [hpt]
        rw [hstep]

theorem foldWinner_some (flips : Nat → Bool) :
    ∀ (cs : List Nat) (acc : Option Nat) (i : Nat),
      foldWinner flips acc cs = some i → (acc = some i ∨ i ∈ cs)
  | [], _, _, h => Or.inl h
  | c :: cs, acc, i, h => by
      simp only [foldWinner, List.foldl_cons] at h
      rcases foldWinner_some flips cs _ i h with h1 | h2
      · cases acc with
        | none =>
            simp only [Option.some.injEq] at h1
            exact Or.inr (by simp [h1])
        | some j =>
            have h1' : (if flips c = true then some c else some j) = some i := h1
            by_cases hf : flips c
            · rw [if_pos hf] at h1'
              have hci := Option.some.inj h1'
              exact Or.inr (by rw [← hci]; exact List.mem_cons_self c cs)
            · rw [if_neg hf] at h1'
              exact Or.inl (by rw [Option.some.inj h1'])
      · exact Or.inr (List.mem_cons_of_mem c h2)

theorem foldWinner_of_some (flips : Nat → Bool) :
    ∀ (cs : List Nat) (j : Nat), foldWinner flips (some j) cs ≠ none
  | [], _, h => Option.noConfusion h
  | c :: cs, j, h => by
      simp only [foldWinner, List.foldl_cons] at h
      by_cases hf : flips c
      · simp only [hf, if_pos] at h
        exact foldWinner_of_some flips cs c h
      · simp only [hf, if_neg] at h
        exact foldWinner_of_some flips cs j h

theorem foldWinner_ne_none (flips : Nat → Bool) :
    ∀ (cs : List Nat) (acc : Option Nat), cs ≠ [] →
      foldWinner flips acc cs ≠ none
  | [], _, h, _ => absurd rfl h
  | c :: cs, acc, _, h => by
      simp only [foldWinner, List.foldl_cons] at h
      cases acc with
      | none => exact foldWinner_of_some flips cs c h
      | some j =>
          by_cases hf : flips c
          · simp only [hf, if_pos] at h
            exact foldWinner_of_some flips cs c h
          · simp only [hf, if_neg] at h
            exact foldWinner_of_some flips cs j h

theorem claimantsFrom_mem (t : Nat) :
    ∀ (l : List Intent) (k i : Nat), i ∈ claimantsFrom k l t →
      k ≤ i ∧ i - k < l.length ∧ (l.getD (i - k) default).dest = t
  | [], _, _, h => by simp [claimantsFrom] at h
  | p :: rest, k, i, h => by
      by_cases hpt : p.dest = t
      · simp only [claimantsFrom, if_pos hpt, List.mem_cons] at h
        rcases h with h1 | h2
        · subst h1
          refine ⟨Nat.le_refl _, by simp, ?_⟩
          simpa using hpt
        · obtain ⟨hk, hlen, hget⟩ := claimantsFrom_mem t rest (k + 1) i h2
          refine ⟨by omega, by simp; omega, ?_⟩
          have hik : i - k = (i - (k + 1)) + 1 := by omega
          rw [hik]
          simpa using hget
      · simp only [claimantsFrom, if_neg hpt] at h
        obtain ⟨hk, hlen, hget⟩ := claimantsFrom_mem t rest (k + 1) i h
        refine ⟨by omega, by simp; omega, ?_⟩
        have hik : i - k = (i - (k + 1)) + 1 := by omega
        rw [hik]
        simpa using hget

theorem claimantsFrom_mem_of (t : Nat) :
    ∀ (l : List Intent) (k i : Nat), i < l.length →
      (l.getD i default).dest = t → (k + i) ∈ claimantsFrom k l t
  | [], _, _, h, _ => by simp at h
  | p :: rest, k, 0, _, hget => by
      have hpt : p.dest = t := by simpa using hget
      simp [claimantsFrom, hpt]
  | p :: rest, k, i + 1, hlen, hget => by
      have hmem := claimantsFrom_mem_of t rest (k + 1) i (by simpa using hlen)
        (by simpa using hget)
      have harith : k + (i + 1) = (k + 1) + i := by omega
      by_cases hpt : p.dest = t
      · simp only [claimantsFrom, if_pos hpt]
        rw [harith]
        exact List.mem_cons_of_mem k hmem
      · simp only [claimantsFrom, if_neg hpt]
        rw [harith]
        exact hmem

/-- C6: `resolveConflicts` is the fold the spec describes - it processes
intents in agent-index order over a winners map initialised to none, a new
claimant taking an unclaimed destination and usurping a claimed one exactly
when its coin flip succeeds - so the winner of each in-range destination
`t` equals the per-destination fold over `t`'s claimants in index order,
and every destination some agent intends ends with exactly one winning
agent index (the winners map holds a single index, itself a claimant of
`t`). -/
theorem resolveConflicts_correct (intents : List Intent) (w h : Nat)
    (flips : Nat → Bool) (t : Nat) (ht : t < w * h) :
    resolveConflicts intents w h flips t
      = foldWinner flips none (claimantsFrom 0 intents t)
    ∧ (∀ i, i < intents.length → (intents.getD i default).dest = t →
        ∃ j, resolveConflicts intents w h flips t = some j
          ∧ j < intents.length ∧ (intents.getD j default).dest = t) := by
  have hchar := resolveGo_char flips (w * h) intents 0 (fun _ => none) t ht
  refine ⟨hchar, ?_⟩
  intro i hi hget
  have hne : claimantsFrom 0 intents t ≠ [] := by
    intro hnil
    have := claimantsFrom_mem_of t intents 0 i hi hget
    rw [hnil] at this
    simp at this
  have hsome : resolveConflicts intents w h flips t ≠ none := by
    rw [show resolveConflicts intents w h flips t
        = resolveGo flips (w * h) 0 intents (fun _ => none) t from rfl, hchar]
    exact foldWinner_ne_none flips _ none hne
  cases hj : resolveConflicts intents w h flips t with
  | none => exact absurd hj hsome
  | some j =>
      refine ⟨j, rfl, ?_⟩
      have hmem : j ∈ claimantsFrom 0 intents t := by
        have h2 : foldWinner flips none (claimantsFrom 0 intents t) = some j := by
          rw [← hchar]
          exact hj
        rcases foldWinner_some flips _ none j h2 with h3 | h3
        · exact Option.noConfusion h3
        · exact h3
      obtain ⟨_, hlen, hget2⟩ := claimantsFrom_mem t intents 0 j hmem
      rw [Nat.sub_zero] at hlen hget2
      exact ⟨hlen, hget2⟩

/-- Witness for C6: two agents both intending cell 0 of a 2x1 grid, with
every contested flip failing - the first claimant keeps the cell. -/
theorem resolveConflicts_correct_witness :
    (0 : Nat) < 2 * 1 ∧
    (resolveConflicts [⟨0, 0⟩, ⟨0, 1⟩] 2 1 (fun _ => false) 0
        = foldWinner (fun _ => false) none
            (claimantsFrom 0 [⟨0, 0⟩, ⟨0, 1⟩] 0)
      ∧ (∀ i, i < ([⟨0, 0⟩, ⟨0, 1⟩] : List Intent).length →
          (([⟨0, 0⟩, ⟨0, 1⟩] : List Intent).getD i default).dest = 0 →
          ∃ j, resolveConflicts [⟨0, 0⟩, ⟨0, 1⟩] 2 1 (fun _ => false) 0 = some j
            ∧ j < ([⟨0, 0⟩, ⟨0, 1⟩] : List Intent).length
            ∧ (([⟨0, 0⟩, ⟨0, 1⟩] : List Intent).getD j default).dest = 0)) := by
  refine ⟨by decide, ?_⟩
  exact resolveConflicts_correct [⟨0, 0⟩, ⟨0, 1⟩] 2 1 (fun _ => false) 0
    (by decide)

theorem bestUpdate_def (grid : List Cell) (occ : Nat → Bool) (w : Nat)
    (b : Best) (nx ny d : Nat) :
    bestUpdate grid occ w b nx ny d
      = if occ (idx nx ny w) then b
        else if (grid.getD (idx nx ny w) default).sugar > b.sugar
            ∨ ((grid.getD (idx nx ny w) default).sugar = b.sugar ∧ d < b.dist)
          then { x := nx, y := ny,
                 sugar := (grid.getD (idx nx ny w) default).sugar, dist := d }
          else b := rfl

theorem bestUpdate_cases (grid : List Cell) (occ : Nat → Bool) (w : Nat)
    (b : Best) (nx ny d : Nat) :
    bestUpdate grid occ w b nx ny d = b
    ∨ (occ (idx nx ny w) = false
        ∧ (bestUpdate grid occ w b nx ny d).x = nx
        ∧ (bestUpdate grid occ w b nx ny d).y = ny) := by
  rw [bestUpdate_def]
  by_cases hocc : occ (idx nx ny w)
  · rw [if_pos hocc]
    exact Or.inl rfl
  · rw [if_neg hocc]
    by_cases hcond : (grid.getD (idx nx ny w) default).sugar > b.sugar
        ∨ ((grid.getD (idx nx ny w) default).sugar = b.sugar ∧ d < b.dist)
    · rw [if_pos hcond]
      exact Or.inr ⟨Bool.not_eq_true _ ▸ hocc, rfl, rfl⟩
    · rw [if_neg hcond]
      exact Or.inl rfl

theorem chooseIntent_dest (grid : List Cell) (occ : Nat → Bool) (w h : Nat)
    (a : Agent) (hw : 0 < w) (hh : 0 < h) (hax : a.x < w) (hay : a.y < h) :
    ((chooseIntent grid occ w h a).dest = idx a.x a.y w
      ∨ occ (chooseIntent grid occ w h a).dest = false)
    ∧ (chooseIntent grid occ w h a).dest < w * h := by
  set B := dirs.foldl (fun b dxy => scanDir grid occ w h a dxy b)
    { x := a.x, y := a.y, sugar := (grid.getD (idx a.x a.y w) default).sugar,
      dist := 0 } with hBdef
  have hdest : (chooseIntent grid occ w h a).dest = idx B.x B.y w := rfl
  have hstep : ∀ (b : Best) (dxy : Int × Int), dxy ∈ dirs →
      (((b.x = a.x ∧ b.y = a.y) ∨ occ (idx b.x b.y w) = false)
        ∧ b.x < w ∧ b.y < h) →
      (((scanDir grid occ w h a dxy b).x = a.x
          ∧ (scanDir grid occ w h a dxy b).y = a.y)
        ∨ occ (idx (scanDir grid occ w h a dxy b).x
            (scanDir grid occ w h a dxy b).y w) = false)
        ∧ (scanDir grid occ w h a dxy b).x < w
        ∧ (scanDir grid occ w h a dxy b).y < h := by
    intro b dxy _ hb
    unfold scanDir
    apply foldl_inv _ (fun b2 : Best =>
      ((b2.x = a.x ∧ b2.y = a.y) ∨ occ (idx b2.x b2.y w) = false)
        ∧ b2.x < w ∧ b2.y < h)
    · exact hb
    · intro b2 d _ hb2
      rcases bestUpdate_cases grid occ w b2
          (wrap ((a.x : Int) + dxy.1 * (d : Int)) w).toNat
          (wrap ((a.y : Int) + dxy.2 * (d : Int)) h).toNat d with
        heq | ⟨hocc, hx, hy⟩
      · have hgoal : (((bestUpdate grid occ w b2
            (wrap ((a.x : Int) + dxy.1 * (d : Int)) w).toNat
            (wrap ((a.y : Int) + dxy.2 * (d : Int)) h).toNat d).x = a.x
            ∧ (bestUpdate grid occ w b2
                (wrap ((a.x : Int) + dxy.1 * (d : Int)) w).toNat
                (wrap ((a.y : Int) + dxy.2 * (d : Int)) h).toNat d).y = a.y)
            ∨ occ (idx (bestUpdate grid occ w b2
                (wrap ((a.x : Int) + dxy.1 * (d : Int)) w).toNat
                (wrap ((a.y : Int) + dxy.2 * (d : Int)) h).toNat d).x
              (bestUpdate grid occ w b2
                (wrap ((a.x : Int) + dxy.1 * (d : Int)) w).toNat
                (wrap ((a.y : Int) + dxy.2 * (d : Int)) h).toNat d).y w) = false)
            ∧ (bestUpdate grid occ w b2
                (wrap ((a.x : Int) + dxy.1 * (d : Int)) w).toNat
                (wrap ((a.y : Int) + dxy.2 * (d : Int)) h).toNat d).x < w
            ∧ (bestUpdate grid occ w b2
                (wrap ((a.x : Int) + dxy.1 * (d : Int)) w).toNat
                (wrap ((a.y : Int) + dxy.2 * (d : Int)) h).toNat d).y < h := by
          rw [heq]
          exact hb2
        exact hgoal
      · have hgoal : (((bestUpdate grid occ w b2
            (wrap ((a.x : Int) + dxy.1 * (d : Int)) w).toNat
            (wrap ((a.y : Int) + dxy.2 * (d : Int)) h).toNat d).x = a.x
            ∧ (bestUpdate grid occ w b2
                (wrap ((a.x : Int) + dxy.1 * (d : Int)) w).toNat
                (wrap ((a.y : Int) + dxy.2 * (d : Int)) h).toNat d).y = a.y)
            ∨ occ (idx (bestUpdate grid occ w b2
                (wrap ((a.x : Int) + dxy.1 * (d : Int)) w).toNat
                (wrap ((a.y : Int) + dxy.2 * (d : Int)) h).toNat d).x
              (bestUpdate grid occ w b2
                (wrap ((a.x : Int) + dxy.1 * (d : Int)) w).toNat
                (wrap ((a.y : Int) + dxy.2 * (d : Int)) h).toNat d).y w) = false)
            ∧ (bestUpdate grid occ w b2
                (wrap ((a.x : Int) + dxy.1 * (d : Int)) w).toNat
                (wrap ((a.y : Int) + dxy.2 * (d : Int)) h).toNat d).x < w
            ∧ (bestUpdate grid occ w b2
                (wrap ((a.x : Int) + dxy.1 * (d : Int)) w).toNat
                (wrap ((a.y : Int) + dxy.2 * (d : Int)) h).toNat d).y < h := by
          rw [hx, hy]
          exact ⟨Or.inr hocc, wrap_toNat_lt _ w hw, wrap_toNat_lt _ h hh⟩
        exact hgoal
  have hP := foldl_inv (fun b dxy => scanDir grid occ w h a dxy b)
    (fun b : Best => ((b.x = a.x ∧ b.y = a.y) ∨ occ (idx b.x b.y w) = false)
      ∧ b.x < w ∧ b.y < h) dirs
    { x := a.x, y := a.y, sugar := (grid.getD (idx a.x a.y w) default).sugar,
      dist := 0 }
    ⟨Or.inl ⟨rfl, rfl⟩, hax, hay⟩ hstep
  rw [← hBdef] at hP
  obtain ⟨hor, hbx, hby⟩ := hP
  rw [hdest]
  constructor
  · rcases hor with ⟨hx, hy⟩ | hocc
    · exact Or.inl (by rw [hx, hy])
    · exact Or.inr hocc
  · exact idx_lt _ _ w h hbx hby

theorem occPrev_origin (agents : List Agent) (w h : Nat) (a : Agent)
    (ha : a ∈ agents) (hax : a.x < w) (hay : a.y < h) :
    occPrev agents w h (idx a.x a.y w) = true := by
  unfold occPrev
  rw [List.any_eq_true]
  refine ⟨a, ha, ?_⟩
  have hlt := idx_lt a.x a.y w h hax hay
  simp [hlt]

theorem resolveGo_oob (flips : Nat → Bool) (wh : Nat) :
    ∀ (l : List Intent) (k : Nat) (W : Nat → Option Nat) (t : Nat), ¬ t < wh →
      resolveGo flips wh k l W t = W t
  | [], _, _, _, _ => rfl
  | p :: rest, k, W, t, ht => by
      simp only [resolveGo]
      rw [resolveGo_oob flips wh rest (k + 1) _ t ht, resolveStep_at]
      have hno : ¬(p.dest = t ∧ t < wh) := fun hc => ht hc.2
      simp [hno]

theorem resolveConflicts_sound (intents : List Intent) (w h : Nat)
    (flips : Nat → Bool) (t i : Nat)
    (hsome : resolveConflicts intents w h flips t = some i) :
    i < intents.length ∧ (intents.getD i default).dest = t := by
  by_cases ht : t < w * h
  · have hchar := resolveGo_char flips (w * h) intents 0 (fun _ => none) t ht
    rw [show resolveConflicts intents w h flips t
        = resolveGo flips (w * h) 0 intents (fun _ => none) t from rfl,
      hchar] at hsome
    rcases foldWinner_some flips _ none i hsome with h1 | h2
    · exact Option.noConfusion h1
    · obtain ⟨_, hlen, hget⟩ := claimantsFrom_mem t intents 0 i h2
      rw [Nat.sub_zero] at hlen hget
      exact ⟨hlen, hget⟩
  · rw [show resolveConflicts intents w h flips t
        = resolveGo flips (w * h) 0 intents (fun _ => none) t from rfl,
      resolveGo_oob flips (w * h) intents 0 (fun _ => none) t ht] at hsome
    exact Option.noConfusion hsome

theorem chooseIntents_getD (agents : List Agent) (grid : List Cell)
    (w h : Nat) (i : Nat) (hi : i < agents.length) :
    (chooseIntents agents grid w h).getD i default
      = chooseIntent grid (occPrev agents w h) w h (agents.getD i default) := by
  unfold chooseIntents
  have hlen : i < (agents.map
      (chooseIntent grid (occPrev agents w h) w h)).length := by
    simpa using hi
  rw [List.getD_eq_getElem _ _ hlen, List.getD_eq_getElem _ _ hi]
  simp

theorem idx_mod_div (x y w : Nat) (hx : x < w) :
    idx x y w % w = x ∧ idx x y w / w = y := by
  unfold idx
  constructor
  · rw [Nat.mul_comm, Nat.mul_add_mod w y x]
    exact Nat.mod_eq_of_lt hx
  · rw [Nat.mul_comm, Nat.mul_add_div (by omega : 0 < w)]
    rw [Nat.div_eq_of_lt hx]
    omega

theorem idx_of_mod_div (t w : Nat) : idx (t % w) (t / w) w = t := by
  unfold idx
  rw [Nat.mul_comm]
  exact Nat.div_add_mod t w

theorem nodup_pos_index (agents : List Agent)
    (hdist : (agents.map (fun a => (a.x, a.y))).Nodup) (i j : Nat)
    (hi : i < agents.length) (hj : j < agents.length)
    (heq : ((agents.getD i default).x, (agents.getD i default).y)
      = ((agents.getD j default).x, (agents.getD j default).y)) : i = j := by
  have hmi : i < (agents.map (fun a => (a.x, a.y))).length := by simpa using hi
  have hmj : j < (agents.map (fun a => (a.x, a.y))).length := by simpa using hj
  have h1 : (agents.map (fun a => (a.x, a.y))).get ⟨i, hmi⟩
      = ((agents.getD i default).x, (agents.getD i default).y) := by
    rw [List.getD_eq_getElem _ _ hi]
    simp
  have h2 : (agents.map (fun a => (a.x, a.y))).get ⟨j, hmj⟩
      = ((agents.getD j default).x, (agents.getD j default).y) := by
    rw [List.getD_eq_getElem _ _ hj]
    simp
  have h3 : (agents.map (fun a => (a.x, a.y))).get ⟨i, hmi⟩
      = (agents.map (fun a => (a.x, a.y))).get ⟨j, hmj⟩ := by
    rw [h1, h2, heq]
  have h4 : (agents.map (fun a => (a.x, a.y)))[i]
      = (agents.map (fun a => (a.x, a.y)))[j] := h3
  exact hdist.getElem_inj_iff.mp h4

/-- C3 counterexample: with two agents already sharing cell (0,0) of a 1x1
world (initial-placement collisions are permitted and not corrected by the
population generator), both agents still occupy (0,0) after applyMoves -
the loser of the conflict stays on the winner's cell. -/
theorem occupancy_fails_on_duplicate_positions :
    ¬ ((applyMoves [⟨0, 0, 0, 0, 1, 0⟩, ⟨1, 0, 0, 0, 1, 0⟩]
          (chooseIntents [⟨0, 0, 0, 0, 1, 0⟩, ⟨1, 0, 0, 0, 1, 0⟩]
            [⟨0, 0⟩] 1 1)
          (resolveConflicts (chooseIntents [⟨0, 0, 0, 0, 1, 0⟩, ⟨1, 0, 0, 0, 1, 0⟩]
            [⟨0, 0⟩] 1 1) 1 1 (fun _ => false)) 1).map
        (fun a => (a.x, a.y))).Nodup := by
  decide

/-- C3 (amended): if the input agents occupy pairwise-distinct cells and
have in-range coordinates, then after `applyMoves` commits the winners of
`resolveConflicts` over the intents of `chooseIntents` - for every coin
flip outcome - no two agents of the resulting set share an (x,y) cell. -/
theorem applyMoves_occupancy (w h : Nat) (agents : List Agent)
    (grid : List Cell) (flips : Nat → Bool) (hw : 0 < w) (hh : 0 < h)
    (hvalid : ∀ a ∈ agents, a.x < w ∧ a.y < h)
    (hdist : (agents.map (fun a => (a.x, a.y))).Nodup) :
    ((applyMoves agents (chooseIntents agents grid w h)
        (resolveConflicts (chooseIntents agents grid w h) w h flips) w).map
      (fun a => (a.x, a.y))).Nodup := by
  have hmem : ∀ k, k < agents.length → agents.getD k default ∈ agents := by
    intro k hk
    rw [List.getD_eq_getElem _ _ hk]
    exact List.getElem_mem hk
  have hv : ∀ k, k < agents.length →
      (agents.getD k default).x < w ∧ (agents.getD k default).y < h :=
    fun k hk => hvalid _ (hmem k hk)
  set intents := chooseIntents agents grid w h with hintdef
  set winners := resolveConflicts intents w h flips with hwindef
  have hfact : ∀ k, k < agents.length →
      ((intents.getD k default).dest
          = idx (agents.getD k default).x (agents.getD k default).y w
        ∨ occPrev agents w h ((intents.getD k default).dest) = false)
      ∧ (intents.getD k default).dest < w * h := by
    intro k hk
    rw [hintdef, chooseIntents_getD agents grid w h k hk]
    exact chooseIntent_dest grid (occPrev agents w h) w h _ hw hh
      (hv k hk).1 (hv k hk).2
  unfold applyMoves
  rw [List.map_map]
  refine List.Nodup.map_on ?_ (List.nodup_range agents.length)
  intro i hi j hj hij
  rw [List.mem_range] at hi hj
  simp only [Function.comp] at hij
  by_cases hwi : winners ((intents.getD i default).dest) = some i
    <;> by_cases hwj : winners ((intents.getD j default).dest) = some j
  · rw [if_pos hwi, if_pos hwj] at hij
    have hij2 : (((intents.getD i default).dest % w,
          (intents.getD i default).dest / w) : Nat × Nat)
        = ((intents.getD j default).dest % w,
          (intents.getD j default).dest / w) := hij
    rw [Prod.mk.injEq] at hij2
    obtain ⟨hx, hy⟩ := hij2
    have e1 := Nat.div_add_mod ((intents.getD i default).dest) w
    have e2 := Nat.div_add_mod ((intents.getD j default).dest) w
    rw [hx, hy] at e1
    have hteq : (intents.getD i default).dest
        = (intents.getD j default).dest := e1.symm.trans e2
    rw [hteq] at hwi
    rw [hwi] at hwj
    exact Option.some.inj hwj
  · rw [if_pos hwi, if_neg hwj] at hij
    have hij2 : (((intents.getD i default).dest % w,
          (intents.getD i default).dest / w) : Nat × Nat)
        = ((agents.getD j default).x, (agents.getD j default).y) := hij
    rw [Prod.mk.injEq] at hij2
    obtain ⟨hx, hy⟩ := hij2
    rcases (hfact i hi).1 with hor | hocc
    · have hmd := idx_mod_div (agents.getD i default).x
        (agents.getD i default).y w (hv i hi).1
      rw [hor] at hx hy
      rw [hmd.1] at hx
      rw [hmd.2] at hy
      exact nodup_pos_index agents hdist i j hi hj (by rw [hx, hy])
    · have hidx : idx (agents.getD j default).x (agents.getD j default).y w
          = (intents.getD i default).dest := by
        rw [← hx, ← hy]
        exact idx_of_mod_div _ w
      have hocc2 := occPrev_origin agents w h (agents.getD j default)
        (hmem j hj) (hv j hj).1 (hv j hj).2
      rw [hidx, hocc] at hocc2
      exact Bool.noConfusion hocc2
  · rw [if_neg hwi, if_pos hwj] at hij
    have hij2 : (((agents.getD i default).x, (agents.getD i default).y) : Nat × Nat)
        = ((intents.getD j default).dest % w,
          (intents.getD j default).dest / w) := hij
    rw [Prod.mk.injEq] at hij2
    obtain ⟨hx, hy⟩ := hij2
    rcases (hfact j hj).1 with hor | hocc
    · have hmd := idx_mod_div (agents.getD j default).x
        (agents.getD j default).y w (hv j hj).1
      rw [hor] at hx hy
      rw [hmd.1] at hx
      rw [hmd.2] at hy
      exact nodup_pos_index agents hdist i j hi hj (by rw [hx, hy])
    · have hidx : idx (agents.getD i default).x (agents.getD i default).y w
          = (intents.getD j default).dest := by
        rw [hx, hy]
        exact idx_of_mod_div _ w
      have hocc2 := occPrev_origin agents w h (agents.getD i default)
        (hmem i hi) (hv i hi).1 (hv i hi).2
      rw [hidx, hocc] at hocc2
      exact Bool.noConfusion hocc2
  · rw [if_neg hwi, if_neg hwj] at hij
    exact nodup_pos_index agents hdist i j hi hj hij

/-- Witness for C3's amended theorem: two agents on distinct cells of a
2x1 world keep distinct cells after the move phase. -/
theorem applyMoves_occupancy_witness :
    (0 : Nat) < 2 ∧ (0 : Nat) < 1 ∧
    (∀ a ∈ ([⟨0, 0, 0, 0, 1, 0⟩, ⟨1, 1, 0, 0, 1, 0⟩] : List Agent),
      a.x < 2 ∧ a.y < 1) ∧
    (([⟨0, 0, 0, 0, 1, 0⟩, ⟨1, 1, 0, 0, 1, 0⟩] : List Agent).map
      (fun a => (a.x, a.y))).Nodup ∧
    ((applyMoves [⟨0, 0, 0, 0, 1, 0⟩, ⟨1, 1, 0, 0, 1, 0⟩]
        (chooseIntents [⟨0, 0, 0, 0, 1, 0⟩, ⟨1, 1, 0, 0, 1, 0⟩]
          [⟨0, 0⟩, ⟨1, 1⟩] 2 1)
        (resolveConflicts (chooseIntents [⟨0, 0, 0, 0, 1, 0⟩, ⟨1, 1, 0, 0, 1, 0⟩]
          [⟨0, 0⟩, ⟨1, 1⟩] 2 1) 2 1 (fun _ => true)) 2).map
      (fun a => (a.x, a.y))).Nodup := by
  refine ⟨by decide, by decide, by decide, by decide, ?_⟩
  exact applyMoves_occupancy 2 1 [⟨0, 0, 0, 0, 1, 0⟩, ⟨1, 1, 0, 0, 1, 0⟩]
    [⟨0, 0⟩, ⟨1, 1⟩] (fun _ => true) (by decide) (by decide) (by decide)
    (by decide)

theorem buildLandscape_inv (width height : Nat) (maxS : Int)
    (bump : Nat → Nat → ℚ) :
    ∀ c ∈ buildLandscape width height maxS bump,
      0 ≤ c.sugar ∧ c.sugar ≤ c.maxSugar := by
  intro c hc
  unfold buildLandscape at hc
  rw [List.mem_flatMap] at hc
  obtain ⟨y, _, hc2⟩ := hc
  rw [List.mem_map] at hc2
  obtain ⟨x, _, rfl⟩ := hc2
  exact ⟨le_max_left 0 _, le_refl _⟩

theorem harvest_grid_inv (w : Nat) :
    ∀ (agents : List Agent) (grid : List Cell),
      (∀ c ∈ grid, 0 ≤ c.sugar ∧ c.sugar ≤ c.maxSugar) →
      (∀ c ∈ (harvest w agents grid).2, 0 ≤ c.sugar ∧ c.sugar ≤ c.maxSugar)
      ∧ (harvest w agents grid).2.map (fun c => c.maxSugar)
          = grid.map (fun c => c.maxSugar)
  | [], _, hinv => ⟨hinv, rfl⟩
  | a :: rest, grid, hinv => by
      rw [harvest_cons]
      have hinv1 : ∀ c ∈ grid.set (idx a.x a.y w)
          { grid.getD (idx a.x a.y w) default with sugar := 0 },
          0 ≤ c.sugar ∧ c.sugar ≤ c.maxSugar := by
        intro c hc
        rcases List.mem_or_eq_of_mem_set hc with hmem | rfl
        · exact hinv c hmem
        · refine ⟨le_refl 0, ?_⟩
          by_cases hj : idx a.x a.y w < grid.length
          · have h0 := hinv (grid.getD (idx a.x a.y w) default)
              (by rw [List.getD_eq_getElem _ _ hj]; exact List.getElem_mem hj)
            exact h0.1.trans h0.2
          · rw [List.getD_eq_default _ _ (Nat.le_of_not_lt hj)]
            exact le_refl 0
      have hmax1 : (grid.set (idx a.x a.y w)
            { grid.getD (idx a.x a.y w) default with sugar := 0 }).map
              (fun c => c.maxSugar)
          = grid.map (fun c => c.maxSugar) := by
        by_cases hj : idx a.x a.y w < grid.length
        · rw [List.map_set]
          apply List.ext_getElem
          · simp
          · intro k h1 h2
            rw [List.getElem_set]
            by_cases heq : idx a.x a.y w = k
            · rw [if_pos heq]
              subst heq
              rw [List.getElem_map, List.getD_eq_getElem _ _ hj]
            · rw [if_neg heq]
        · rw [List.set_eq_of_length_le (Nat.le_of_not_lt hj)]
      obtain ⟨hi2, hm2⟩ := harvest_grid_inv w rest _ hinv1
      exact ⟨hi2, hm2.trans hmax1⟩

theorem grow_grid_inv (rate : Int) (hrate : 0 ≤ rate) (grid : List Cell)
    (hinv : ∀ c ∈ grid, 0 ≤ c.sugar ∧ c.sugar ≤ c.maxSugar) :
    (∀ c ∈ grid.map (fun c =>
        { c with sugar := min c.maxSugar (c.sugar + rate) }),
      0 ≤ c.sugar ∧ c.sugar ≤ c.maxSugar)
    ∧ (grid.map (fun c =>
        { c with sugar := min c.maxSugar (c.sugar + rate) })).map
          (fun c => c.maxSugar)
      = grid.map (fun c => c.maxSugar) := by
  constructor
  · intro c hc
    rw [List.mem_map] at hc
    obtain ⟨c0, hc0, rfl⟩ := hc
    obtain ⟨h1, h2⟩ := hinv c0 hc0
    exact ⟨le_min (h1.trans h2) (by omega), min_le_left _ _⟩
  · rw [List.map_map]
    rfl

theorem hmdg_grid_inv (agents : List Agent) (grid : List Cell) (rate : Int)
    (w : Nat) (hrate : 0 ≤ rate)
    (hinv : ∀ c ∈ grid, 0 ≤ c.sugar ∧ c.sugar ≤ c.maxSugar) :
    (∀ c ∈ (harvestMetabolizeDieGrow agents grid rate w).2,
      0 ≤ c.sugar ∧ c.sugar ≤ c.maxSugar)
    ∧ (harvestMetabolizeDieGrow agents grid rate w).2.map
        (fun c => c.maxSugar)
      = grid.map (fun c => c.maxSugar) := by
  obtain ⟨hH, hHm⟩ := harvest_grid_inv w agents grid hinv
  obtain ⟨hG, hGm⟩ := grow_grid_inv rate hrate _ hH
  exact ⟨hG, hGm.trans hHm⟩

/-- C5: from a freshly built landscape, after any number of ticks (any
coin-flip and respawn draws, growback rate &ge; 0) every cell satisfies
`0 ≤ sugar ≤ maxSugar`, every cell's `maxSugar` still equals the value
fixed at landscape creation, and the bound also holds at the intra-tick
phase boundary right after the harvest loop (for any post-move agent
set). -/
theorem sugar_bounds_invariant (w h : Nat) (maxS : Int)
    (bump : Nat → Nat → ℚ) (agents0 : List Agent) (rate : Int)
    (hrate : 0 ≤ rate) (flipsSeq : Nat → Nat → Bool) (respawn : Bool)
    (agentCount : Nat) (mkSeq : Nat → Nat → List Agent) (n : Nat) :
    (∀ c ∈ (iterWorld w h rate flipsSeq respawn agentCount mkSeq
        (agents0, buildLandscape w h maxS bump) n).2,
      0 ≤ c.sugar ∧ c.sugar ≤ c.maxSugar)
    ∧ (iterWorld w h rate flipsSeq respawn agentCount mkSeq
        (agents0, buildLandscape w h maxS bump) n).2.map
          (fun c => c.maxSugar)
      = (buildLandscape w h maxS bump).map (fun c => c.maxSugar)
    ∧ ∀ (post : List Agent),
        (∀ c ∈ (harvest w post (iterWorld w h rate flipsSeq respawn
            agentCount mkSeq (agents0, buildLandscape w h maxS bump) n).2).2,
          0 ≤ c.sugar ∧ c.sugar ≤ c.maxSugar)
        ∧ (harvest w post (iterWorld w h rate flipsSeq respawn agentCount
            mkSeq (agents0, buildLandscape w h maxS bump) n).2).2.map
              (fun c => c.maxSugar)
          = (iterWorld w h rate flipsSeq respawn agentCount mkSeq
              (agents0, buildLandscape w h maxS bump) n).2.map
                (fun c => c.maxSugar) := by
  induction n with
  | zero =>
      refine ⟨buildLandscape_inv w h maxS bump, rfl, ?_⟩
      intro post
      exact harvest_grid_inv w post _ (buildLandscape_inv w h maxS bump)
  | succ n ih =>
      obtain ⟨h1, h2, _⟩ := ih
      have hgrid : (iterWorld w h rate flipsSeq respawn agentCount mkSeq
            (agents0, buildLandscape w h maxS bump) (n + 1)).2
          = (harvestMetabolizeDieGrow
              (applyMoves
                (iterWorld w h rate flipsSeq respawn agentCount mkSeq
                  (agents0, buildLandscape w h maxS bump) n).1
                (chooseIntents
                  (iterWorld w h rate flipsSeq respawn agentCount mkSeq
                    (agents0, buildLandscape w h maxS bump) n).1
                  (iterWorld w h rate flipsSeq respawn agentCount mkSeq
                    (agents0, buildLandscape w h maxS bump) n).2 w h)
                (resolveConflicts
                  (chooseIntents
                    (iterWorld w h rate flipsSeq respawn agentCount mkSeq
                      (agents0, buildLandscape w h maxS bump) n).1
                    (iterWorld w h rate flipsSeq respawn agentCount mkSeq
                      (agents0, buildLandscape w h maxS bump) n).2 w h)
                  w h (flipsSeq n)) w)
              (iterWorld w h rate flipsSeq respawn agentCount mkSeq
                (agents0, buildLandscape w h maxS bump) n).2 rate w).2 := rfl
      obtain ⟨hstep1, hstep2⟩ := hmdg_grid_inv
        (applyMoves
          (iterWorld w h rate flipsSeq respawn agentCount mkSeq
            (agents0, buildLandscape w h maxS bump) n).1
          (chooseIntents
            (iterWorld w h rate flipsSeq respawn agentCount mkSeq
              (agents0, buildLandscape w h maxS bump) n).1
            (iterWorld w h rate flipsSeq respawn agentCount mkSeq
              (agents0, buildLandscape w h maxS bump) n).2 w h)
          (resolveConflicts
            (chooseIntents
              (iterWorld w h rate flipsSeq respawn agentCount mkSeq
                (agents0, buildLandscape w h maxS bump) n).1
              (iterWorld w h rate flipsSeq respawn agentCount mkSeq
                (agents0, buildLandscape w h maxS bump) n).2 w h)
            w h (flipsSeq n)) w)
        (iterWorld w h rate flipsSeq respawn agentCount mkSeq
          (agents0, buildLandscape w h maxS bump) n).2 rate w hrate h1
      refine ⟨?_, ?_, ?_⟩
      · rw [hgrid]
        exact hstep1
      · rw [hgrid]
        exact hstep2.trans h2
      · intro post
        have hnext1 : ∀ c ∈ (iterWorld w h rate flipsSeq respawn agentCount
            mkSeq (agents0, buildLandscape w h maxS bump) (n + 1)).2,
            0 ≤ c.sugar ∧ c.sugar ≤ c.maxSugar := by
          rw [hgrid]
          exact hstep1
        exact harvest_grid_inv w post _ hnext1

/-- Witness for C5 on a 1x1 landscape with constant bump 1, no agents,
growback rate 0, after one tick. -/
theorem sugar_bounds_invariant_witness :
    (0 : Int) ≤ 0 ∧
    ((∀ c ∈ (iterWorld 1 1 0 (fun _ _ => false) false 0 (fun _ _ => [])
        ([], buildLandscape 1 1 1 (fun _ _ => 1)) 1).2,
      0 ≤ c.sugar ∧ c.sugar ≤ c.maxSugar)
    ∧ (iterWorld 1 1 0 (fun _ _ => false) false 0 (fun _ _ => [])
        ([], buildLandscape 1 1 1 (fun _ _ => 1)) 1).2.map
          (fun c => c.maxSugar)
      = (buildLandscape 1 1 1 (fun _ _ => 1)).map (fun c => c.maxSugar)
    ∧ ∀ (post : List Agent),
        (∀ c ∈ (harvest 1 post (iterWorld 1 1 0 (fun _ _ => false) false 0
            (fun _ _ => []) ([], buildLandscape 1 1 1 (fun _ _ => 1)) 1).2).2,
          0 ≤ c.sugar ∧ c.sugar ≤ c.maxSugar)
        ∧ (harvest 1 post (iterWorld 1 1 0 (fun _ _ => false) false 0
            (fun _ _ => []) ([], buildLandscape 1 1 1 (fun _ _ => 1)) 1).2).2.map
              (fun c => c.maxSugar)
          = (iterWorld 1 1 0 (fun _ _ => false) false 0 (fun _ _ => [])
              ([], buildLandscape 1 1 1 (fun _ _ => 1)) 1).2.map
                (fun c => c.maxSugar)) := by
  refine ⟨le_refl 0, ?_⟩
  exact sugar_bounds_invariant 1 1 1 (fun _ _ => 1) [] 0 (le_refl 0)
    (fun _ _ => false) false 0 (fun _ _ => []) 1

theorem foldl_min_le : ∀ (vs : List Int) (v : Int), vs.foldl min v ≤ v
  | [], _ => le_refl _
  | x :: vs, v => le_trans (foldl_min_le vs (min v x)) (min_le_left v x)

theorem le_foldl_max : ∀ (vs : List Int) (v : Int), v ≤ vs.foldl max v
  | [], _ => le_refl _
  | x :: vs, v => le_trans (le_max_left v x) (le_foldl_max vs (max v x))

theorem sum_set_incr : ∀ (l : List Nat) (j : Nat), j < l.length →
    (l.set j (l.getD j 0 + 1)).sum = l.sum + 1
  | [], j, h => by simp at h
  | x :: xs, 0, _ => by simp [List.set]; omega
  | x :: xs, j + 1, h => by
      have hj : j < xs.length := by simpa using h
      simp only [List.set, List.sum_cons, List.getD_cons_succ]
      rw [sum_set_incr xs j hj]
      omega

theorem counts_fold_length (f : Int → Nat) :
    ∀ (xs : List Int) (arr : List Nat),
      (xs.foldl (fun arr x => arr.set (f x) (arr.getD (f x) 0 + 1)) arr).length
        = arr.length
  | [], _ => rfl
  | x :: xs, arr => by
      simp only [List.foldl_cons]
      rw [counts_fold_length f xs _]
      exact List.length_set arr _ _

theorem counts_fold_getD (f : Int → Nat) :
    ∀ (xs : List Int) (arr : List Nat) (i : Nat),
      (∀ x ∈ xs, f x < arr.length) →
      (xs.foldl (fun arr x => arr.set (f x) (arr.getD (f x) 0 + 1)) arr).getD i 0
        = arr.getD i 0 + (xs.filter (fun x => f x == i)).length
  | [], _, _, _ => by simp
  | x :: xs, arr, i, hb => by
      simp only [List.foldl_cons, List.filter_cons]
      have hrec := counts_fold_getD f xs (arr.set (f x) (arr.getD (f x) 0 + 1)) i
        (fun y hy => by
          rw [List.length_set]
          exact hb y (List.mem_cons_of_mem x hy))
      rw [hrec]
      by_cases hfx : f x = i
      · rw [if_pos (by simpa using hfx)]
        subst hfx
        rw [getD_set_eq arr (f x) _ 0 (hb x (List.mem_cons_self x xs))]
        simp only [List.length_cons]
        omega
      · rw [if_neg (by simpa using hfx)]
        rw [getD_set_ne arr i (f x) _ 0 hfx]

theorem counts_fold_sum (f : Int → Nat) :
    ∀ (xs : List Int) (arr : List Nat),
      (∀ x ∈ xs, f x < arr.length) →
      (xs.foldl (fun arr x => arr.set (f x) (arr.getD (f x) 0 + 1)) arr).sum
        = arr.sum + xs.length
  | [], _, _ => by simp
  | x :: xs, arr, hb => by
      simp only [List.foldl_cons]
      rw [counts_fold_sum f xs _ (fun y hy => by
        rw [List.length_set]
        exact hb y (List.mem_cons_of_mem x hy))]
      rw [sum_set_incr arr (f x) (hb x (List.mem_cons_self x xs))]
      simp only [List.length_cons]
      omega

theorem range_map_getD (l : List Nat) :
    (List.range l.length).map (fun i => l.getD i 0) = l := by
  apply List.ext_getElem
  · simp
  · intro k h1 h2
    rw [List.getElem_map, List.getElem_range, List.getD_eq_getElem _ _ h2]

theorem range_map_getD2 (l : List Nat) (n : Nat) (hn : l.length = n) :
    (List.range n).map (fun i => l.getD i 0) = l := by
  subst hn
  exact range_map_getD l

theorem histBinSize_pos (v : Int) (vs : List Int) (k : Nat) :
    0 < histBinSize v vs k := by
  unfold histBinSize
  omega

theorem histNB_pos (v : Int) (vs : List Int) (binSize : Nat)
    (hbs : 0 < binSize) : 0 < histNB v vs binSize := by
  unfold histNB histRange
  have h1 : binSize ≤ (histMax v vs - histMin v vs).toNat + 1 + binSize - 1 := by
    omega
  have := (Nat.le_div_iff_mul_le hbs).mpr (by omega :
    1 * binSize ≤ (histMax v vs - histMin v vs).toNat + 1 + binSize - 1)
  omega

theorem histNB_mul_ge (v : Int) (vs : List Int) (binSize : Nat)
    (hbs : 0 < binSize) :
    histRange v vs ≤ histNB v vs binSize * binSize := by
  unfold histNB
  have e1 := Nat.div_add_mod (histRange v vs + binSize - 1) binSize
  have e2 := Nat.mod_lt (histRange v vs + binSize - 1) hbs
  have e3 : ((histRange v vs + binSize - 1) / binSize) * binSize
      = binSize * ((histRange v vs + binSize - 1) / binSize) := Nat.mul_comm _ _
  omega

theorem wealthHistogram_eq (agents : List Agent) (v : Int) (vs : List Int)
    (auto : Bool) (bc : Nat)
    (hmap : agents.map (fun a => a.sugar) = v :: vs)
    (hne : histMin v vs ≠ histMax v vs) :
    wealthHistogram agents auto bc
      = (List.range (histNB v vs
            (histBinSize v vs (histK auto bc agents.length)))).map
          (fun (i : Nat) =>
            { lo := histMin v vs + (i : Int)
                * (histBinSize v vs (histK auto bc agents.length) : Int),
              hi := histMin v vs + (i : Int)
                * (histBinSize v vs (histK auto bc agents.length) : Int)
                + (histBinSize v vs (histK auto bc agents.length) : Int) - 1,
              count := ((v :: vs).foldl (fun arr x =>
                arr.set (binIndexOf (histMin v vs)
                    (histBinSize v vs (histK auto bc agents.length))
                    (histNB v vs (histBinSize v vs (histK auto bc agents.length))) x)
                  (arr.getD (binIndexOf (histMin v vs)
                    (histBinSize v vs (histK auto bc agents.length))
                    (histNB v vs (histBinSize v vs (histK auto bc agents.length))) x)
                    0 + 1))
                (List.replicate (histNB v vs
                  (histBinSize v vs (histK auto bc agents.length))) 0)).getD i 0 }) := by
  have hstep : wealthHistogram agents auto bc
      = if histMin v vs = histMax v vs
        then [{ lo := histMin v vs, hi := histMax v vs,
                count := agents.length }]
        else (List.range (histNB v vs
            (histBinSize v vs (histK auto bc agents.length)))).map
          (fun (i : Nat) =>
            { lo := histMin v vs + (i : Int)
                * (histBinSize v vs (histK auto bc agents.length) : Int),
              hi := histMin v vs + (i : Int)
                * (histBinSize v vs (histK auto bc agents.length) : Int)
                + (histBinSize v vs (histK auto bc agents.length) : Int) - 1,
              count := ((v :: vs).foldl (fun arr x =>
                arr.set (binIndexOf (histMin v vs)
                    (histBinSize v vs (histK auto bc agents.length))
                    (histNB v vs (histBinSize v vs (histK auto bc agents.length))) x)
                  (arr.getD (binIndexOf (histMin v vs)
                    (histBinSize v vs (histK auto bc agents.length))
                    (histNB v vs (histBinSize v vs (histK auto bc agents.length))) x)
                    0 + 1))
                (List.replicate (histNB v vs
                  (histBinSize v vs (histK auto bc agents.length))) 0)).getD i 0 }) := by
    unfold wealthHistogram
    rw [hmap]
  rw [hstep, if_neg hne]

/-- C8: for a non-empty population whose floored sugar values `v :: vs`
have distinct min and max, the histogram's bins carry the labels
`[minS + i*binSize, minS + i*binSize + binSize - 1]` (contiguous integer
ranges starting at the minimum, the last bin reaching at least the
maximum), every agent is counted in exactly the bin
`clamp(floor((value - min)/binSize), 0, nb-1)` (each bin's count is the
number of values mapped to it by `binIndexOf`), and the bin counts sum to
the number of agents. -/
theorem wealthHistogram_correct (agents : List Agent) (v : Int)
    (vs : List Int) (auto : Bool) (bc : Nat)
    (hmap : agents.map (fun a => a.sugar) = v :: vs)
    (hne : histMin v vs ≠ histMax v vs) :
    (wealthHistogram agents auto bc).length
        = histNB v vs (histBinSize v vs (histK auto bc agents.length))
    ∧ 0 < histNB v vs (histBinSize v vs (histK auto bc agents.length))
    ∧ (∀ i, i < histNB v vs (histBinSize v vs (histK auto bc agents.length)) →
        ((wealthHistogram agents auto bc).getD i ⟨0, 0, 0⟩).lo
            = histMin v vs + (i : Int)
                * (histBinSize v vs (histK auto bc agents.length) : Int)
        ∧ ((wealthHistogram agents auto bc).getD i ⟨0, 0, 0⟩).hi
            = histMin v vs + (i : Int)
                * (histBinSize v vs (histK auto bc agents.length) : Int)
                + (histBinSize v vs (histK auto bc agents.length) : Int) - 1
        ∧ ((wealthHistogram agents auto bc).getD i ⟨0, 0, 0⟩).count
            = ((v :: vs).filter (fun x =>
                binIndexOf (histMin v vs)
                  (histBinSize v vs (histK auto bc agents.length))
                  (histNB v vs (histBinSize v vs (histK auto bc agents.length)))
                  x == i)).length)
    ∧ histMax v vs
        ≤ histMin v vs
          + ((histNB v vs (histBinSize v vs (histK auto bc agents.length)) : Int) - 1)
            * (histBinSize v vs (histK auto bc agents.length) : Int)
          + (histBinSize v vs (histK auto bc agents.length) : Int) - 1
    ∧ ((wealthHistogram agents auto bc).map (fun b => b.count)).sum
        = agents.length := by
  set k := histK auto bc agents.length with hk
  set bs := histBinSize v vs k with hbs
  set nb := histNB v vs bs with hnb
  have hbspos : 0 < bs := histBinSize_pos v vs k
  have hnbpos : 0 < nb := histNB_pos v vs bs hbspos
  have hbin_lt : ∀ x, binIndexOf (histMin v vs) bs nb x < nb := by
    intro x
    unfold binIndexOf
    omega
  have hwh := wealthHistogram_eq agents v vs auto bc hmap hne
  have hlen : (wealthHistogram agents auto bc).length = nb := by
    rw [hwh]
    simp
  have hcounts_len : ((v :: vs).foldl (fun arr x =>
      arr.set (binIndexOf (histMin v vs) bs nb x)
        (arr.getD (binIndexOf (histMin v vs) bs nb x) 0 + 1))
      (List.replicate nb 0)).length = nb := by
    rw [counts_fold_length (binIndexOf (histMin v vs) bs nb) (v :: vs)
      (List.replicate nb 0)]
    exact List.length_replicate nb 0
  refine ⟨hlen, hnbpos, ?_, ?_, ?_⟩
  · intro i hi
    have hget : (wealthHistogram agents auto bc).getD i ⟨0, 0, 0⟩
        = { lo := histMin v vs + (i : Int) * (bs : Int),
            hi := histMin v vs + (i : Int) * (bs : Int) + (bs : Int) - 1,
            count := ((v :: vs).foldl (fun arr x =>
              arr.set (binIndexOf (histMin v vs) bs nb x)
                (arr.getD (binIndexOf (histMin v vs) bs nb x) 0 + 1))
              (List.replicate nb 0)).getD i 0 } := by
      rw [hwh]
      have hi2 : i < ((List.range nb).map (fun (i : Nat) =>
          ({ lo := histMin v vs + (i : Int) * (bs : Int),
             hi := histMin v vs + (i : Int) * (bs : Int) + (bs : Int) - 1,
             count := ((v :: vs).foldl (fun arr x =>
               arr.set (binIndexOf (histMin v vs) bs nb x)
                 (arr.getD (binIndexOf (histMin v vs) bs nb x) 0 + 1))
               (List.replicate nb 0)).getD i 0 } : Bin))).length := by
        simpa using hi
      rw [List.getD_eq_getElem _ _ hi2]
      rw [List.getElem_map]
      rw [List.getElem_range]
    rw [hget]
    refine ⟨rfl, rfl, ?_⟩
    have hc := counts_fold_getD (binIndexOf (histMin v vs) bs nb) (v :: vs)
      (List.replicate nb 0) i
      (fun x _ => by rw [List.length_replicate]; exact hbin_lt x)
    have hrep : (List.replicate nb (0 : Nat)).getD i 0 = 0 := by
      rw [List.getD_eq_getElem _ _ (by simpa using hi)]
      simp
    rw [hc, hrep]
    simp
  · have hmulge := histNB_mul_ge v vs bs hbspos
    have hminmax : histMin v vs ≤ histMax v vs :=
      le_trans (foldl_min_le vs v) (le_foldl_max vs v)
    have hrange_eq : ((histRange v vs : Nat) : Int)
        = histMax v vs - histMin v vs + 1 := by
      unfold histRange
      have h0 : (0 : Int) ≤ histMax v vs - histMin v vs := by omega
      push_cast [Int.toNat_of_nonneg h0]
      ring
    have hcast : ((histRange v vs : Nat) : Int) ≤ (nb : Int) * (bs : Int) := by
      exact_mod_cast hmulge
    have hexp : ((nb : Int) - 1) * (bs : Int) = (nb : Int) * (bs : Int) - bs := by
      ring
    linarith
  · rw [hwh, List.map_map]
    have hcomp : ((List.range nb).map ((fun b : Bin => b.count) ∘ (fun (i : Nat) =>
        ({ lo := histMin v vs + (i : Int) * (bs : Int),
           hi := histMin v vs + (i : Int) * (bs : Int) + (bs : Int) - 1,
           count := ((v :: vs).foldl (fun arr x =>
             arr.set (binIndexOf (histMin v vs) bs nb x)
               (arr.getD (binIndexOf (histMin v vs) bs nb x) 0 + 1))
             (List.replicate nb 0)).getD i 0 } : Bin))))
        = (List.range nb).map (fun (i : Nat) =>
            ((v :: vs).foldl (fun arr x =>
              arr.set (binIndexOf (histMin v vs) bs nb x)
                (arr.getD (binIndexOf (histMin v vs) bs nb x) 0 + 1))
              (List.replicate nb 0)).getD i 0) := rfl
    rw [hcomp]
    have hr : (List.range nb).map (fun (i : Nat) =>
        ((v :: vs).foldl (fun arr x =>
          arr.set (binIndexOf (histMin v vs) bs nb x)
            (arr.getD (binIndexOf (histMin v vs) bs nb x) 0 + 1))
          (List.replicate nb 0)).getD i 0)
        = (v :: vs).foldl (fun arr x =>
            arr.set (binIndexOf (histMin v vs) bs nb x)
              (arr.getD (binIndexOf (histMin v vs) bs nb x) 0 + 1))
          (List.replicate nb 0) := by
      exact range_map_getD2 _ nb hcounts_len
    rw [hr]
    rw [counts_fold_sum (binIndexOf (histMin v vs) bs nb) (v :: vs)
      (List.replicate nb 0)
      (fun x _ => by rw [List.length_replicate]; exact hbin_lt x)]
    have hsum0 : (List.replicate nb (0 : Nat)).sum = 0 := by simp
    rw [hsum0]
    have hlen2 : agents.length = (v :: vs).length := by
      rw [← hmap, List.length_map]
    rw [hlen2]
    omega

/-- Witness for C8: two agents with sugars 0 and 5, manual bin count 2. -/
theorem wealthHistogram_correct_witness :
    ([⟨0, 0, 0, 0, 1, 0⟩, ⟨1, 1, 0, 5, 1, 0⟩] : List Agent).map
        (fun a => a.sugar) = 0 :: [5] ∧
    histMin 0 [5] ≠ histMax 0 [5] ∧
    ((wealthHistogram [⟨0, 0, 0, 0, 1, 0⟩, ⟨1, 1, 0, 5, 1, 0⟩] false 2).length
        = histNB 0 [5] (histBinSize 0 [5] (histK false 2
            ([⟨0, 0, 0, 0, 1, 0⟩, ⟨1, 1, 0, 5, 1, 0⟩] : List Agent).length))
    ∧ 0 < histNB 0 [5] (histBinSize 0 [5] (histK false 2
        ([⟨0, 0, 0, 0, 1, 0⟩, ⟨1, 1, 0, 5, 1, 0⟩] : List Agent).length))
    ∧ (∀ i, i < histNB 0 [5] (histBinSize 0 [5] (histK false 2
          ([⟨0, 0, 0, 0, 1, 0⟩, ⟨1, 1, 0, 5, 1, 0⟩] : List Agent).length)) →
        ((wealthHistogram [⟨0, 0, 0, 0, 1, 0⟩, ⟨1, 1, 0, 5, 1, 0⟩] false 2).getD
            i ⟨0, 0, 0⟩).lo
            = histMin 0 [5] + (i : Int)
                * (histBinSize 0 [5] (histK false 2
                  ([⟨0, 0, 0, 0, 1, 0⟩, ⟨1, 1, 0, 5, 1, 0⟩] : List Agent).length) : Int)
        ∧ ((wealthHistogram [⟨0, 0, 0, 0, 1, 0⟩, ⟨1, 1, 0, 5, 1, 0⟩] false 2).getD
            i ⟨0, 0, 0⟩).hi
            = histMin 0 [5] + (i : Int)
                * (histBinSize 0 [5] (histK false 2
                  ([⟨0, 0, 0, 0, 1, 0⟩, ⟨1, 1, 0, 5, 1, 0⟩] : List Agent).length) : Int)
                + (histBinSize 0 [5] (histK false 2
                  ([⟨0, 0, 0, 0, 1, 0⟩, ⟨1, 1, 0, 5, 1, 0⟩] : List Agent).length) : Int) - 1
        ∧ ((wealthHistogram [⟨0, 0, 0, 0, 1, 0⟩, ⟨1, 1, 0, 5, 1, 0⟩] false 2).getD
            i ⟨0, 0, 0⟩).count
            = ((0 :: [5] : List Int).filter (fun x =>
                binIndexOf (histMin 0 [5])
                  (histBinSize 0 [5] (histK false 2
                    ([⟨0, 0, 0, 0, 1, 0⟩, ⟨1, 1, 0, 5, 1, 0⟩] : List Agent).length))
                  (histNB 0 [5] (histBinSize 0 [5] (histK false 2
                    ([⟨0, 0, 0, 0, 1, 0⟩, ⟨1, 1, 0, 5, 1, 0⟩] : List Agent).length)))
                  x == i)).length)
    ∧ histMax 0 [5]
        ≤ histMin 0 [5]
          + ((histNB 0 [5] (histBinSize 0 [5] (histK false 2
              ([⟨0, 0, 0, 0, 1, 0⟩, ⟨1, 1, 0, 5, 1, 0⟩] : List Agent).length)) : Int) - 1)
            * (histBinSize 0 [5] (histK false 2
              ([⟨0, 0, 0, 0, 1, 0⟩, ⟨1, 1, 0, 5, 1, 0⟩] : List Agent).length) : Int)
          + (histBinSize 0 [5] (histK false 2
              ([⟨0, 0, 0, 0, 1, 0⟩, ⟨1, 1, 0, 5, 1, 0⟩] : List Agent).length) : Int) - 1
    ∧ ((wealthHistogram [⟨0, 0, 0, 0, 1, 0⟩, ⟨1, 1, 0, 5, 1, 0⟩] false 2).map
        (fun b => b.count)).sum
        = ([⟨0, 0, 0, 0, 1, 0⟩, ⟨1, 1, 0, 5, 1, 0⟩] : List Agent).length) := by
  refine ⟨by decide, by decide, ?_⟩
  exact wealthHistogram_correct [⟨0, 0, 0, 0, 1, 0⟩, ⟨1, 1, 0, 5, 1, 0⟩]
    0 [5] false 2 (by decide) (by decide)
